import Mathlib

/-!
# Verification of the htaub-cli payslip sync tool

A shallow embedding, in Lean 4, of the parts of `payslip_sync.py`,
`ihcm_auth.py` and `ihcm_extractor.py` that the specification talks about,
together with theorems settling the specification's claims.

Conventions used throughout:
* Python dicts are association lists in insertion order; assignment replaces
  in place or appends (`updateA`).
* Machine-level concerns (HTTP transport, real clocks, the filesystem) are
  modelled explicitly: servers are functions from request parameters to
  responses, the clock is a natural-number counter, the filesystem is the set
  of paths that exist.
* Python exceptions are `Except` errors; a `try/except` clause is a `match`
  that converts the caught constructors and propagates the rest.
-/

set_option maxRecDepth 4000

/-- Lookup in an association list; first match wins (for lists built with
`updateA` this is exactly Python dict lookup). -/
def lookupA {α : Type} : List (String × α) → String → Option α
  | [], _ => none
  | (k, v) :: rest, key => if k = key then some v else lookupA rest key

/-- Python dict assignment `d[k] = v`: replaces the value in place if the key
exists, otherwise appends at the end (insertion order is preserved). -/
def updateA {α : Type} : List (String × α) → String → α → List (String × α)
  | [], key, v => [(key, v)]
  | (k, w) :: rest, key, v =>
    if k = key then (key, v) :: rest else (k, w) :: updateA rest key v

/-- Does the second list start with the first? -/
def listStartsWith : List Char → List Char → Bool
  | [], _ => true
  | _ :: _, [] => false
  | a :: as, b :: bs => a = b ∧ listStartsWith as bs

/-- Worker for `pySplit`: scans for non-overlapping occurrences of `sep`
left to right.  Fuel-indexed so that the definition is structurally
recursive (and hence evaluates inside the kernel); the callers pass more
fuel than the input length, which always suffices for a nonempty `sep`. -/
def pySplitGo (sep : List Char) : Nat → List Char → List Char →
    List (List Char) → List (List Char)
  | 0, l, cur, acc => acc ++ [cur.reverse ++ l]
  | fuel + 1, l, cur, acc =>
    match l with
    | [] => acc ++ [cur.reverse]
    | c :: rest =>
      if listStartsWith sep l then
        pySplitGo sep fuel (l.drop sep.length) [] (acc ++ [cur.reverse])
      else pySplitGo sep fuel rest (c :: cur) acc

/-- Python `s.split(sep)` for a nonempty separator (same semantics as Lean's
`String.splitOn`, reimplemented over character lists so that it evaluates in
the kernel). -/
def pySplit (s sep : String) : List String :=
  (pySplitGo sep.data (s.data.length + 1) s.data [] []).map String.mk

/-- Python `needle in hay` for strings (with a constant, nonempty needle):
the needle occurs as a substring exactly when splitting on it yields at least
two pieces. -/
def substrIn (needle hay : String) : Bool := 2 ≤ (pySplit hay needle).length

/-- Python `s.lower()`, ASCII part (every string any claim sends through it
is ASCII; the Unicode case table is not modelled). -/
def pyLower (s : String) : String :=
  String.mk (s.data.map fun c =>
    if 'A' ≤ c ∧ c ≤ 'Z' then Char.ofNat (c.toNat + 32) else c)

/-!
## JSON values

JSON values as produced by Python's `json.loads`.  Numbers are modelled as
rationals: integer literals (all values the claims exercise) are exact;
decimal literals are exact decimals here whereas Python rounds them to binary
floats, and the nonstandard CPython extensions `NaN`/`Infinity` are not
modelled.  Objects keep their fields in first-insertion order with later
duplicate keys overriding earlier ones (Python dict semantics, applied when
the object is parsed).
-/

inductive Json where
  | null
  | bool (b : Bool)
  | num (q : ℚ)
  | str (s : String)
  | arr (elems : List Json)
  | obj (fields : List (String × Json))

/-- Python truthiness of a JSON value: `None`, `False`, `0`, `""` and empty
containers are falsy, everything else is truthy. -/
def Json.truthy : Json → Bool
  | .null => false
  | .bool b => b
  | .num q => decide (q ≠ 0)
  | .str s => decide (s ≠ "")
  | .arr l => !l.isEmpty
  | .obj l => !l.isEmpty

/-- Python `str()` of a JSON value.  Faithful on strings and bools (the only
shapes any claim exercises through `str`); integers render as their digits;
the renderings of fractional numbers and containers are placeholders, reached
by no claim. -/
def Json.pyStr : Json → String
  | .null => "None"
  | .bool b => if b then "True" else "False"
  | .num q => if q.den = 1 then toString q.num else toString q.num ++ "/" ++ toString q.den
  | .str s => s
  | .arr _ => "<list>"
  | .obj _ => "<dict>"

/-!
## `base64.urlsafe_b64decode`

`urlsafe_b64decode` translates `-`/`_` to `+`/`/` and calls `b64decode` with
`validate=False`, which is CPython's `binascii.a2b_base64` in non-strict
mode: characters outside the alphabet are skipped; a padding character `=`
seen with at least two data characters in the current quad and enough
accumulated padding to complete it ends the decode successfully (everything
after it is ignored), while any other `=` is skipped with its count
remembered; if the input ends with a partially filled quad, the decode fails
(`binascii.Error`, a subclass of `ValueError`).  This behaviour was confirmed
against CPython on a battery of edge cases (mid-string padding, skipped junk,
trailing garbage after complete padding).
-/

/-- The value of a single base64 character; both the standard and the urlsafe
alphabet are accepted (the translation step makes them equivalent). -/
def b64Val (c : Char) : Option Nat :=
  if 'A' ≤ c ∧ c ≤ 'Z' then some (c.toNat - 65)
  else if 'a' ≤ c ∧ c ≤ 'z' then some (c.toNat - 71)
  else if '0' ≤ c ∧ c ≤ '9' then some (c.toNat + 4)
  else if c = '+' ∨ c = '-' then some 62
  else if c = '/' ∨ c = '_' then some 63
  else none

/-- Main loop of `binascii.a2b_base64` (non-strict).  Arguments: remaining
input, position in the current quad (0–3), bits carried from the previous
character, count of pending `=` characters, output bytes so far. -/
def b64DecodeGo : List Char → Nat → Nat → Nat → List Nat → Except Unit (List Nat)
  | [], qp, _, _, out => if qp = 0 then .ok out else .error ()
  | c :: rest, qp, leftchar, pads, out =>
    if c = '=' then
      if 2 ≤ qp ∧ 4 ≤ qp + pads + 1 then .ok out
      else b64DecodeGo rest qp leftchar (pads + 1) out
    else
      match b64Val c with
      | none => b64DecodeGo rest qp leftchar pads out
      | some v =>
        match qp with
        | 0 => b64DecodeGo rest 1 v 0 out
        | 1 => b64DecodeGo rest 2 (v % 16) 0 (out ++ [leftchar * 4 + v / 16])
        | 2 => b64DecodeGo rest 3 (v % 4) 0 (out ++ [leftchar * 16 + v / 4])
        | _ => b64DecodeGo rest 0 0 0 (out ++ [leftchar * 64 + v])

/-- `base64.urlsafe_b64decode` on a string, returning the decoded bytes. -/
def urlsafeB64Decode (s : String) : Except Unit (List Nat) :=
  b64DecodeGo s.data 0 0 0 []

/-!
## UTF-8 and `json.loads`

`json.loads` on `bytes` first decodes them as UTF-8 (strict: truncated,
overlong and surrogate sequences fail, raising a `ValueError`), then parses
the JSON text.
-/

/-- Strict UTF-8 decoding of a byte list into characters. -/
def utf8Decode : List Nat → Option (List Char)
  | [] => some []
  | b0 :: rest =>
    if b0 ≤ 0x7F then (utf8Decode rest).map (Char.ofNat b0 :: ·)
    else if 0xC2 ≤ b0 ∧ b0 ≤ 0xDF then
      match rest with
      | b1 :: rest2 =>
        if 0x80 ≤ b1 ∧ b1 ≤ 0xBF then
          (utf8Decode rest2).map (Char.ofNat ((b0 - 0xC0) * 64 + (b1 - 0x80)) :: ·)
        else none
      | [] => none
    else if 0xE0 ≤ b0 ∧ b0 ≤ 0xEF then
      match rest with
      | b1 :: b2 :: rest3 =>
        let lo1 := if b0 = 0xE0 then 0xA0 else 0x80
        let hi1 := if b0 = 0xED then 0x9F else 0xBF
        if lo1 ≤ b1 ∧ b1 ≤ hi1 ∧ 0x80 ≤ b2 ∧ b2 ≤ 0xBF then
          (utf8Decode rest3).map
            (Char.ofNat ((b0 - 0xE0) * 4096 + (b1 - 0x80) * 64 + (b2 - 0x80)) :: ·)
        else none
      | _ => none
    else if 0xF0 ≤ b0 ∧ b0 ≤ 0xF4 then
      match rest with
      | b1 :: b2 :: b3 :: rest4 =>
        let lo1 := if b0 = 0xF0 then 0x90 else 0x80
        let hi1 := if b0 = 0xF4 then 0x8F else 0xBF
        if lo1 ≤ b1 ∧ b1 ≤ hi1 ∧ 0x80 ≤ b2 ∧ b2 ≤ 0xBF ∧ 0x80 ≤ b3 ∧ b3 ≤ 0xBF then
          (utf8Decode rest4).map
            (Char.ofNat ((b0 - 0xF0) * 262144 + (b1 - 0x80) * 4096 +
              (b2 - 0x80) * 64 + (b3 - 0x80)) :: ·)
        else none
      | _ => none
    else none

/-- JSON whitespace (space, tab, newline, carriage return). -/
def jsonSkipWs : List Char → List Char
  | [] => []
  | c :: rest =>
    if c = ' ' ∨ c = '\t' ∨ c = '\n' ∨ c = '\r' then jsonSkipWs rest else c :: rest

/-- Hex digit value. -/
def hexVal (c : Char) : Option Nat :=
  if '0' ≤ c ∧ c ≤ '9' then some (c.toNat - 48)
  else if 'a' ≤ c ∧ c ≤ 'f' then some (c.toNat - 87)
  else if 'A' ≤ c ∧ c ≤ 'F' then some (c.toNat - 55)
  else none

/-- JSON string body after the opening quote.  Standard escapes and `\uXXXX`
are supported; surrogate escape pairs combine into one character; a lone
surrogate escape (which Python would keep as a lone surrogate, a value a Lean
`Char` cannot hold) fails; unescaped control characters fail (`strict=True`,
the `json.loads` default). -/
def jsonParseStrGo : List Char → List Char → Option (List Char × List Char)
  | [], _ => none
  | c :: rest, acc =>
    if c = '"' then some (acc.reverse, rest)
    else if c = '\\' then
      match rest with
      | [] => none
      | e :: rest2 =>
        if e = '"' then jsonParseStrGo rest2 ('"' :: acc)
        else if e = '\\' then jsonParseStrGo rest2 ('\\' :: acc)
        else if e = '/' then jsonParseStrGo rest2 ('/' :: acc)
        else if e = 'b' then jsonParseStrGo rest2 (Char.ofNat 8 :: acc)
        else if e = 'f' then jsonParseStrGo rest2 (Char.ofNat 12 :: acc)
        else if e = 'n' then jsonParseStrGo rest2 ('\n' :: acc)
        else if e = 'r' then jsonParseStrGo rest2 ('\r' :: acc)
        else if e = 't' then jsonParseStrGo rest2 ('\t' :: acc)
        else if e = 'u' then
          match rest2 with
          | h1 :: h2 :: h3 :: h4 :: rest3 =>
            match hexVal h1, hexVal h2, hexVal h3, hexVal h4 with
            | some a, some b, some c3, some d =>
              let cp := a * 4096 + b * 256 + c3 * 16 + d
              if 0xD800 ≤ cp ∧ cp ≤ 0xDBFF then
                match rest3 with
                | s1 :: s2 :: g1 :: g2 :: g3 :: g4 :: rest4 =>
                  if s1 = '\\' ∧ s2 = 'u' then
                    match hexVal g1, hexVal g2, hexVal g3, hexVal g4 with
                    | some a2, some b2, some c2, some d2 =>
                      let lo := a2 * 4096 + b2 * 256 + c2 * 16 + d2
                      if 0xDC00 ≤ lo ∧ lo ≤ 0xDFFF then
                        jsonParseStrGo rest4
                          (Char.ofNat (0x10000 + (cp - 0xD800) * 1024 + (lo - 0xDC00)) :: acc)
                      else none
                    | _, _, _, _ => none
                  else none
                | _ => none
              else if 0xDC00 ≤ cp ∧ cp ≤ 0xDFFF then none
              else jsonParseStrGo rest3 (Char.ofNat cp :: acc)
            | _, _, _, _ => none
          | _ => none
        else none
    else if c.toNat < 0x20 then none
    else jsonParseStrGo rest (c :: acc)

/-- Digit value. -/
def digitVal (c : Char) : Option Nat :=
  if '0' ≤ c ∧ c ≤ '9' then some (c.toNat - 48) else none

/-- Take a maximal run of decimal digits. -/
def takeDigits : List Char → (List Nat × List Char)
  | [] => ([], [])
  | c :: rest =>
    match digitVal c with
    | some d => let (ds, r) := takeDigits rest; (d :: ds, r)
    | none => ([], c :: rest)

/-- Digits to a natural number. -/
def digitsToNat (ds : List Nat) : Nat := ds.foldl (fun a d => a * 10 + d) 0

/-- JSON number (RFC 8259 grammar: optional sign, integer part without
leading zeros, optional fraction, optional exponent), as an exact rational. -/
def jsonParseNumber (input : List Char) : Option (ℚ × List Char) :=
  let (neg, rest1) :=
    match input with
    | c :: r => if c = '-' then (true, r) else (false, input)
    | [] => (false, [])
  let (ids, rest2) := takeDigits rest1
  if ids = [] then none
  else if 2 ≤ ids.length ∧ ids.headD 1 = 0 then none
  else
    let intVal : ℚ := (digitsToNat ids : ℚ)
    let fracStep : Option (ℚ × List Char) :=
      match rest2 with
      | '.' :: r =>
        let (fds, r2) := takeDigits r
        if fds = [] then none
        else some (intVal + (digitsToNat fds : ℚ) / ((10 : ℚ) ^ fds.length), r2)
      | _ => some (intVal, rest2)
    match fracStep with
    | none => none
    | some (v, rest3) =>
      let expStep : Option (ℚ × List Char) :=
        match rest3 with
        | c :: r =>
          if c = 'e' ∨ c = 'E' then
            let (esign, r1) :=
              match r with
              | c2 :: r2 =>
                if c2 = '-' then (true, r2)
                else if c2 = '+' then (false, r2)
                else (false, r)
              | [] => (false, r)
            let (eds, r2) := takeDigits r1
            if eds = [] then none
            else
              let e := digitsToNat eds
              some (if esign then v / ((10 : ℚ) ^ e) else v * ((10 : ℚ) ^ e), r2)
          else some (v, rest3)
        | [] => some (v, rest3)
      match expStep with
      | none => none
      | some (v2, rest4) => some (if neg then -v2 else v2, rest4)

/-- Parser modes: a whole value, the items of an array after `[` or `,`, the
start of an object after its opening brace, or the members of an object. -/
inductive PMode where
  | value
  | arrItems (acc : List Json)
  | objStart
  | objMember (acc : List (String × Json))

/-- JSON parser: recursive descent over the four modes, fuel-indexed so the
recursion is structural on the fuel (and hence evaluates in the kernel).
Every recursive call strictly decreases the fuel; the top-level caller
supplies more than twice the input length, which always suffices since each
fuel level either consumes input or switches mode after consuming input.
Object members are merged with Python dict semantics (later duplicate keys
override in place) once the object closes. -/
def jsonP : Nat → PMode → List Char → Option (Json × List Char)
  | 0, _, _ => none
  | fuel + 1, mode, input =>
    match mode with
    | .value =>
      match jsonSkipWs input with
      | [] => none
      | c :: rest =>
        if c = '"' then
          (jsonParseStrGo rest []).map (fun p => (.str (String.mk p.1), p.2))
        else if c = Char.ofNat 123 then jsonP fuel .objStart (jsonSkipWs rest)
        else if c = '[' then jsonP fuel (.arrItems []) (jsonSkipWs rest)
        else if c = 't' then
          match rest with
          | 'r' :: 'u' :: 'e' :: r => some (.bool true, r)
          | _ => none
        else if c = 'f' then
          match rest with
          | 'a' :: 'l' :: 's' :: 'e' :: r => some (.bool false, r)
          | _ => none
        else if c = 'n' then
          match rest with
          | 'u' :: 'l' :: 'l' :: r => some (.null, r)
          | _ => none
        else
          (jsonParseNumber (c :: rest)).map (fun p => (.num p.1, p.2))
    | .arrItems acc =>
      match input, acc with
      | ']' :: r, [] => some (.arr [], r)
      | _, _ =>
        match jsonP fuel .value input with
        | none => none
        | some (v, rest) =>
          match jsonSkipWs rest with
          | ',' :: r => jsonP fuel (.arrItems (acc ++ [v])) (jsonSkipWs r)
          | ']' :: r => some (.arr (acc ++ [v]), r)
          | _ => none
    | .objStart =>
      match input with
      | c :: r =>
        if c = Char.ofNat 125 then some (.obj [], r)
        else jsonP fuel (.objMember []) input
      | [] => none
    | .objMember acc =>
      match input with
      | '"' :: r =>
        match jsonParseStrGo r [] with
        | none => none
        | some (keyChars, rest) =>
          match jsonSkipWs rest with
          | ':' :: r2 =>
            match jsonP fuel .value r2 with
            | none => none
            | some (v, rest2) =>
              let acc2 := acc ++ [(String.mk keyChars, v)]
              match jsonSkipWs rest2 with
              | ',' :: r3 => jsonP fuel (.objMember acc2) (jsonSkipWs r3)
              | c :: r3 =>
                if c = Char.ofNat 125 then
                  some (.obj (acc2.foldl (fun m kv => updateA m kv.1 kv.2) []), r3)
                else none
              | [] => none
          | _ => none
      | _ => none

/-- `json.loads` on bytes: UTF-8 decode, parse one value, require only
whitespace afterwards ("Extra data" otherwise).  `none` models the raised
`ValueError` (`JSONDecodeError` or `UnicodeDecodeError`). -/
def jsonLoads (bytes : List Nat) : Option Json :=
  match utf8Decode bytes with
  | none => none
  | some cs =>
    match jsonP (2 * cs.length + 2) .value cs with
    | none => none
    | some (v, rest) => if jsonSkipWs rest = [] then some v else none

/-!
## `SessionCache.is_token_expired` (`ihcm_auth.py`)
-/

/-- Python exceptions distinguished by the embedding.  `binascii.Error`,
`json.JSONDecodeError` and `UnicodeDecodeError` are all subclasses of
`ValueError` and are folded into `valueError`. -/
inductive PyExn where
  | valueError
  | keyError
  | attributeError
  | typeError
deriving Repr, DecidableEq

/-- Platform parameters of `datetime`: the current time
(`datetime.now().timestamp()`) and the timestamp range accepted by
`datetime.fromtimestamp` (outside it CPython raises `ValueError:
year ... is out of range`; the exact bounds depend on the local timezone).
Times are rationals, in seconds since the Unix epoch. -/
structure Platform where
  now : ℚ
  tsMin : ℚ
  tsMax : ℚ
deriving Repr, DecidableEq

/-- `datetime.fromtimestamp(q).timestamp()`: the identity on the platform's
representable range and `ValueError` outside it.  (The round-trip's
sub-microsecond rounding on non-integer timestamps is not modelled.) -/
def fromtimestampRoundtrip (pf : Platform) (q : ℚ) : Except PyExn ℚ :=
  if pf.tsMin ≤ q ∧ q ≤ pf.tsMax then .ok q else .error .valueError

/-- What `datetime.fromtimestamp` makes of a JSON value: numbers are used
directly, Python bools are ints (`True` is 1), and strings, arrays and
objects raise `TypeError`.  Only truthy values reach this point. -/
def Json.asTimestamp : Json → Except PyExn ℚ
  | .num q => .ok q
  | .bool b => .ok (if b then 1 else 0)
  | _ => .error .typeError

/-- Decides `a - b < c` over ℚ by cross-multiplying with the (positive)
denominators, so that it evaluates by pure integer arithmetic inside the
kernel (rational subtraction itself normalizes through `Nat.gcd`, which does
not reduce definitionally).  `ratSubLt_eq` proves it is exactly
`decide (a - b < c)`. -/
def ratSubLt (a b c : ℚ) : Bool :=
  decide ((a.num * (b.den : ℤ) - (a.den : ℤ) * b.num) * (c.den : ℤ) <
    c.num * ((a.den : ℤ) * (b.den : ℤ)))

theorem ratSubLt_eq (a b c : ℚ) : ratSubLt a b c = decide (a - b < c) := by
  rw [ratSubLt, decide_eq_decide]
  have ha : (0 : ℚ) < (a.den : ℚ) := by exact_mod_cast a.den_pos
  have hb : (0 : ℚ) < (b.den : ℚ) := by exact_mod_cast b.den_pos
  have hc : (0 : ℚ) < (c.den : ℚ) := by exact_mod_cast c.den_pos
  rw [show a - b < c ↔ (a.num : ℚ) / a.den - (b.num : ℚ) / b.den < (c.num : ℚ) / c.den by
    rw [Rat.num_div_den, Rat.num_div_den, Rat.num_div_den]]
  rw [div_sub_div _ _ (ne_of_gt ha) (ne_of_gt hb), div_lt_div_iff₀ (by positivity) hc]
  constructor
  · intro h
    exact_mod_cast h
  · intro h
    exact_mod_cast h

/-- The padding step of `is_token_expired`: `padding = 4 - len % 4`, appended
as `=` characters when nonzero. -/
def paddedPayloadB64 (payload_b64 : String) : String :=
  let padding := 4 - payload_b64.length % 4
  if padding ≠ 4 then payload_b64 ++ String.mk (List.replicate padding '=')
  else payload_b64

/-- Body of `SessionCache.is_token_expired` (the code inside its `try`):
split on `.`, demand three segments, pad and base64-decode the middle
segment, `json.loads` it, read `exp` with `dict.get` (an `AttributeError` if
the payload is not an object), treat a falsy `exp` as non-expiring, convert
through `datetime.fromtimestamp`, and compare `exp - now` against
`buffer_minutes * 60` seconds. -/
def isTokenExpiredBody (pf : Platform) (bearer_token : String)
    (buffer_minutes : Nat) : Except PyExn Bool :=
  let parts := pySplit bearer_token "."
  if parts.length ≠ 3 then .ok true
  else
    match urlsafeB64Decode (paddedPayloadB64 parts[1]!) with
    | .error _ => .error .valueError
    | .ok payload_json =>
      match jsonLoads payload_json with
      | none => .error .valueError
      | some payload =>
        match payload with
        | .obj fields =>
          let exp_timestamp := (lookupA fields "exp").getD .null
          if !exp_timestamp.truthy then .ok false
          else
            match exp_timestamp.asTimestamp with
            | .error e => .error e
            | .ok ts =>
              match fromtimestampRoundtrip pf ts with
              | .error e => .error e
              | .ok expTs =>
                let buffer_seconds := buffer_minutes * 60
                .ok (ratSubLt expTs pf.now (buffer_seconds : ℚ))
        | _ => .error .attributeError

/-- `SessionCache.is_token_expired`: the body wrapped in
`except (ValueError, KeyError, json.JSONDecodeError): return True`
(`JSONDecodeError` is itself a `ValueError`); any other exception
propagates out of the function. -/
def is_token_expired (pf : Platform) (bearer_token : String)
    (buffer_minutes : Nat := 5) : Except PyExn Bool :=
  match isTokenExpiredBody pf bearer_token buffer_minutes with
  | .ok b => .ok b
  | .error .valueError => .ok true
  | .error .keyError => .ok true
  | .error e => .error e

/-- The middle-segment payload of a three-part token, as `is_token_expired`
decodes it (padding, urlsafe base64, `json.loads`); `none` when any stage
fails.  Used to state claims about decodable tokens. -/
def tokenPayload (bearer_token : String) : Option Json :=
  let parts := pySplit bearer_token "."
  if parts.length ≠ 3 then none
  else
    match urlsafeB64Decode (paddedPayloadB64 parts[1]!) with
    | .error _ => none
    | .ok payload_json => jsonLoads payload_json

/-- A concrete platform for witnesses: clock at 2025-01-01T00:00:00Z
(timestamp 1735689600) with the UTC `fromtimestamp` range
(0001-01-01T00:00:00Z to 9999-12-31T23:59:59Z). -/
def stdPlatform : Platform :=
  { now := 1735689600, tsMin := -62135596800, tsMax := 253402300799 }

/-- Decidable equality for `Except` results (used to state and evaluate
claims about raised-vs-returned outcomes). -/
instance {ε α : Type} [DecidableEq ε] [DecidableEq α] :
    DecidableEq (Except ε α) := fun a b =>
  match a, b with
  | .ok x, .ok y =>
    if h : x = y then .isTrue (by rw [h]) else .isFalse (fun hh => h (Except.ok.inj hh))
  | .error e, .error f =>
    if h : e = f then .isTrue (by rw [h]) else .isFalse (fun hh => h (Except.error.inj hh))
  | .ok _, .error _ => .isFalse (fun hh => Except.noConfusion hh)
  | .error _, .ok _ => .isFalse (fun hh => Except.noConfusion hh)

/-- Characterization of `isTokenExpiredBody` on a three-part token whose
middle segment decodes (padding, urlsafe base64, `json.loads`) to a payload:
the body reduces to the `exp`-inspection tail applied to that payload. -/
theorem isTokenExpiredBody_of_payload (pf : Platform) (tok : String)
    (payload : Json) (h3 : (pySplit tok ".").length = 3)
    (hp : tokenPayload tok = some payload) :
    isTokenExpiredBody pf tok 5 =
      (match payload with
       | .obj fields =>
         let exp_timestamp := (lookupA fields "exp").getD .null
         if !exp_timestamp.truthy then .ok false
         else
           match exp_timestamp.asTimestamp with
           | .error e => .error e
           | .ok ts =>
             match fromtimestampRoundtrip pf ts with
             | .error e => .error e
             | .ok expTs => .ok (ratSubLt expTs pf.now ((5 * 60 : Nat) : ℚ))
       | _ => .error .attributeError) := by
  unfold isTokenExpiredBody
  unfold tokenPayload at hp
  rw [if_neg (by rw [h3]; exact fun h => h rfl)] at hp ⊢
  obtain ⟨bs, hdec, hjs⟩ :
      ∃ bs, urlsafeB64Decode (paddedPayloadB64 (pySplit tok ".")[1]!) = .ok bs ∧
        jsonLoads bs = some payload := by
    cases hdec : urlsafeB64Decode (paddedPayloadB64 (pySplit tok ".")[1]!) with
    | error e => rw [hdec] at hp; simp at hp
    | ok bs => rw [hdec] at hp; simp at hp; exact ⟨bs, rfl, hp⟩
  rw [hdec]
  simp only [hjs]
  cases payload <;> rfl


/-- Specialization of `isTokenExpiredBody_of_payload` to object payloads. -/
theorem isTokenExpiredBody_of_obj (pf : Platform) (tok : String)
    (fields : List (String × Json)) (h3 : (pySplit tok ".").length = 3)
    (hp : tokenPayload tok = some (.obj fields)) :
    isTokenExpiredBody pf tok 5 =
      (let exp_timestamp := (lookupA fields "exp").getD .null
       if !exp_timestamp.truthy then .ok false
       else
         match exp_timestamp.asTimestamp with
         | .error e => .error e
         | .ok ts =>
           match fromtimestampRoundtrip pf ts with
           | .error e => .error e
           | .ok expTs => .ok (ratSubLt expTs pf.now ((5 * 60 : Nat) : ℚ))) := by
  rw [isTokenExpiredBody_of_payload pf tok (.obj fields) h3 hp]

/-- `is_token_expired` as the body with its `except` wrapper, for rewriting. -/
theorem is_token_expired_eq (pf : Platform) (tok : String) (bm : Nat) :
    is_token_expired pf tok bm =
      match isTokenExpiredBody pf tok bm with
      | .ok b => .ok b
      | .error .valueError => .ok true
      | .error .keyError => .ok true
      | .error e => .error e := rfl

/-- C7 (amended): for every three-part token whose middle segment decodes
(tolerating missing padding) to a JSON object, `is_token_expired` with the
default 5-minute buffer behaves as follows: with no `exp` claim it returns
false (non-expiring); with a numeric `exp` equal to zero it also returns
false, because `if not exp_timestamp` treats a falsy `exp` like an absent one
— so "true for every exp in the past" fails at `exp = 0`; with a nonzero
numeric `exp` inside `datetime.fromtimestamp`'s representable range it
returns true exactly when `exp − now < 300` seconds — in particular true for
every such past `exp` and false for an `exp` 10 minutes in the future; and
with a nonzero `exp` outside the representable range the raised `ValueError`
is caught and it returns true. -/
theorem c7_token_expiry (pf : Platform) (tok : String)
    (fields : List (String × Json)) (h3 : (pySplit tok ".").length = 3)
    (hp : tokenPayload tok = some (.obj fields)) :
    (lookupA fields "exp" = none → is_token_expired pf tok = .ok false) ∧
    (lookupA fields "exp" = some (.num 0) →
      is_token_expired pf tok = .ok false) ∧
    (∀ q : ℚ, lookupA fields "exp" = some (.num q) → q ≠ 0 →
      pf.tsMin ≤ q → q ≤ pf.tsMax →
      is_token_expired pf tok = .ok (decide (q - pf.now < 300))) ∧
    (∀ q : ℚ, lookupA fields "exp" = some (.num q) → q ≠ 0 →
      ¬(pf.tsMin ≤ q ∧ q ≤ pf.tsMax) → is_token_expired pf tok = .ok true) ∧
    (∀ q : ℚ, lookupA fields "exp" = some (.num q) → q ≠ 0 →
      pf.tsMin ≤ q → q ≤ pf.now → is_token_expired pf tok = .ok true) ∧
    (∀ q : ℚ, lookupA fields "exp" = some (.num q) → q = pf.now + 600 →
      pf.tsMin ≤ q → q ≤ pf.tsMax → is_token_expired pf tok = .ok false) := by
  have hbody := isTokenExpiredBody_of_obj pf tok fields h3 hp
  refine ⟨?_, ?_, ?_, ?_, ?_, ?_⟩
  · intro hexp
    rw [is_token_expired_eq, hbody, hexp]
    simp [Json.truthy]
  · intro hexp
    rw [is_token_expired_eq, hbody, hexp]
    simp [Json.truthy]
  · intro q hexp hq0 hlo hhi
    rw [is_token_expired_eq, hbody, hexp]
    simp [Json.truthy, Json.asTimestamp, fromtimestampRoundtrip, ratSubLt_eq,
      hq0, hlo, hhi]
  · intro q hexp hq0 hrange
    rw [is_token_expired_eq, hbody, hexp]
    simp [Json.truthy, Json.asTimestamp, fromtimestampRoundtrip, hq0, hrange]
  · intro q hexp hq0 hlo hpast
    rw [is_token_expired_eq, hbody, hexp]
    rcases em (q ≤ pf.tsMax) with hhi | hhi
    · have hlt : q - pf.now < (300 : ℚ) := by linarith
      simp [Json.truthy, Json.asTimestamp, fromtimestampRoundtrip, ratSubLt_eq,
        hq0, hlo, hhi, hlt]
    · have hrange : ¬(pf.tsMin ≤ q ∧ q ≤ pf.tsMax) := fun hand => hhi hand.2
      simp [Json.truthy, Json.asTimestamp, fromtimestampRoundtrip, hq0, hrange]
  · intro q hexp hfut hlo hhi
    rw [is_token_expired_eq, hbody, hexp]
    rcases em (q = 0) with hq0 | hq0
    · simp [Json.truthy, hq0]
    · have hge : (300 : ℚ) ≤ q - pf.now := by rw [hfut]; linarith
      simp [Json.truthy, Json.asTimestamp, fromtimestampRoundtrip, ratSubLt_eq,
        hq0, hlo, hhi, hge]

/-- C7 counterexample: the token `h.eyJleHAiOjB9.s` has three segments and a
payload that decodes to the JSON object with `exp = 0` — an expiry strictly
in the past of `stdPlatform`'s clock — yet `is_token_expired` returns false,
because `if not exp_timestamp` treats the falsy value `0` as "no expiry
claim".  The claim demands true for every `exp` in the past. -/
theorem c7_counterexample :
    tokenPayload "h.eyJleHAiOjB9.s" = some (.obj [("exp", .num 0)]) ∧
    (0 : ℚ) < stdPlatform.now ∧
    is_token_expired stdPlatform "h.eyJleHAiOjB9.s" = .ok false :=
  ⟨rfl, by decide, by decide⟩

/-- Witness for `c7_token_expiry`: at `stdPlatform` (clock 1735689600), a
token with `exp = 1700000000` (in the past, in range, nonzero) is reported
expiring, and one with `exp = 1735690200 = now + 600` (10 minutes ahead) is
not. -/
theorem c7_token_expiry_witness :
    is_token_expired stdPlatform "a.eyJleHAiOjE3MDAwMDAwMDB9.b" = .ok true ∧
    is_token_expired stdPlatform "a.eyJleHAiOjE3MzU2OTAyMDB9.b" = .ok false := by
  constructor
  · exact (c7_token_expiry stdPlatform "a.eyJleHAiOjE3MDAwMDAwMDB9.b"
      [("exp", Json.num 1700000000)] (by rfl) (by rfl)).2.2.2.2.1
      1700000000 rfl (by norm_num) (by decide) (by decide)
  · exact (c7_token_expiry stdPlatform "a.eyJleHAiOjE3MzU2OTAyMDB9.b"
      [("exp", Json.num 1735690200)] (by rfl) (by rfl)).2.2.2.2.2
      1735690200 rfl (by simp only [stdPlatform]; norm_num) (by decide) (by decide)

/-- C8 (amended): `is_token_expired` returns true (fail-safe) on each of the
three malformed shapes the claim lists — a segment count other than three, a
middle segment whose padded form fails base64 decoding, and a decoded
payload that is not parseable JSON.  It is however not total on arbitrary
strings: a payload that parses to JSON which is not an object raises an
uncaught `AttributeError` (see `c8_counterexample`), and an object payload
whose `exp` is truthy but not a number raises an uncaught `TypeError`. -/
theorem c8_fail_safe (pf : Platform) (tok : String) :
    ((pySplit tok ".").length ≠ 3 → is_token_expired pf tok = .ok true) ∧
    ((pySplit tok ".").length = 3 →
      urlsafeB64Decode (paddedPayloadB64 (pySplit tok ".")[1]!) = .error () →
      is_token_expired pf tok = .ok true) ∧
    ((pySplit tok ".").length = 3 → ∀ bs : List Nat,
      urlsafeB64Decode (paddedPayloadB64 (pySplit tok ".")[1]!) = .ok bs →
      jsonLoads bs = none → is_token_expired pf tok = .ok true) := by
  refine ⟨?_, ?_, ?_⟩
  · intro hlen
    rw [is_token_expired_eq]
    unfold isTokenExpiredBody
    rw [if_pos hlen]
  · intro h3 hdec
    rw [is_token_expired_eq]
    unfold isTokenExpiredBody
    rw [if_neg (by rw [h3]; exact fun h => h rfl)]
    simp only [hdec]
  · intro h3 bs hdec hjs
    rw [is_token_expired_eq]
    unfold isTokenExpiredBody
    rw [if_neg (by rw [h3]; exact fun h => h rfl)]
    simp only [hdec, hjs]

/-- C8 counterexample: on the three-part token `a.MTIz.b`, whose middle
segment is valid base64 for the valid JSON payload `123` (not an object),
`is_token_expired` does not return — `payload.get('exp')` raises an
`AttributeError` that no `except` clause catches — refuting "total on
arbitrary input strings, never raises". -/
theorem c8_counterexample :
    tokenPayload "a.MTIz.b" = some (.num 123) ∧
    is_token_expired stdPlatform "a.MTIz.b" = .error .attributeError :=
  ⟨rfl, by decide⟩

/-- Witness for `c8_fail_safe`: a two-segment token, a three-segment token
with undecodable middle `Y` (a lone data character in its quad), and one
whose middle decodes to the non-JSON bytes `notjson` all yield `True`. -/
theorem c8_fail_safe_witness :
    is_token_expired stdPlatform "a.b" = .ok true ∧
    is_token_expired stdPlatform "a.Y.b" = .ok true ∧
    is_token_expired stdPlatform "a.bm90anNvbg.b" = .ok true := by
  refine ⟨?_, ?_, ?_⟩
  · exact (c8_fail_safe stdPlatform "a.b").1 (by decide)
  · exact (c8_fail_safe stdPlatform "a.Y.b").2.1 (by rfl) (by rfl)
  · exact (c8_fail_safe stdPlatform "a.bm90anNvbg.b").2.2 (by rfl)
      [110, 111, 116, 106, 115, 111, 110] (by rfl) (by rfl)

/-!
## Pagination

`IHCMExtractor.extract_all` (in `ihcm_extractor.py`) and
`PayslipSyncer.list_all_payslips` (in `payslip_sync.py`) both loop requesting
pages from offset `start`, extend the accumulator with the returned batch,
advance `start` by the length of the batch actually returned (never by the
requested page size, which only appears inside the request payload), and stop
on an empty batch or when the accumulated count reaches the reported total.
The server is modelled as a pure function of the offset; both loops are
fuel-indexed because `while True` need not terminate against an adversarial
server — every theorem supplies sufficient fuel.  Both workers also count the
requests issued.
-/

/-- Worker for `IHCMExtractor.extract_all`; the server
`fetch : start ↦ (data, total)` is the parsed
`(result.get('data', []), result.get('total', 0))` of `fetch_batch(start)`.
The reported total is latched from the first response only
(`if total is None`). -/
def extractAllGo {α : Type} (fetch : Nat → List α × Nat) :
    Nat → Nat → List α → Option Nat → Nat → List α × Nat
  | 0, _, acc, _, reqs => (acc, reqs)
  | fuel + 1, start, acc, total?, reqs =>
    if (fetch start).1.isEmpty then (acc, reqs + 1)
    else if total?.getD (fetch start).2 ≤ (acc ++ (fetch start).1).length then
      (acc ++ (fetch start).1, reqs + 1)
    else
      extractAllGo fetch fuel (start + (fetch start).1.length)
        (acc ++ (fetch start).1) (some (total?.getD (fetch start).2)) (reqs + 1)

/-- `IHCMExtractor.extract_all`: all accumulated records and the number of
requests issued. -/
def extract_all {α : Type} (fetch : Nat → List α × Nat) (fuel : Nat) :
    List α × Nat :=
  extractAllGo fetch fuel 0 [] none 0

/-- A well-behaved server holding the collection `L`: every response reports
`total = L.length`; a request at an offset inside the collection returns a
nonempty initial segment of the remainder (possibly shorter than any
requested page size); a request past the end returns an empty page. -/
def ChunkedFetch {α : Type} (L : List α) (fetch : Nat → List α × Nat) : Prop :=
  ∀ start, (fetch start).2 = L.length ∧
    (start < L.length →
      (fetch start).1 ≠ [] ∧ ∃ k, (fetch start).1 = (L.drop start).take k) ∧
    (L.length ≤ start → (fetch start).1 = [])

/-- Against any well-behaved chunked server holding `L`, the `extract_all`
loop starting from a consistent intermediate state returns exactly `L`. -/
theorem extractAllGo_chunked {α : Type} (L : List α)
    (fetch : Nat → List α × Nat) (hf : ChunkedFetch L fetch) :
    ∀ fuel start acc reqs total?, acc = L.take start → start ≤ L.length →
      (total? = none ∨ total? = some L.length) → L.length - start < fuel →
      (extractAllGo fetch fuel start acc total? reqs).1 = L := by
  intro fuel
  induction fuel with
  | zero => intro start acc reqs total? _ _ _ hcontra; omega
  | succ f ih =>
    intro start acc reqs total? hacc hstart htot hfuel
    obtain ⟨htotal, hin, hout⟩ := hf start
    have htget : total?.getD (fetch start).2 = L.length := by
      rcases htot with h | h <;> simp [h, htotal]
    rcases Nat.lt_or_ge start L.length with hlt | hge
    · obtain ⟨hne, k, hk⟩ := hin hlt
      have hbe : (fetch start).1.isEmpty = false := by
        simp [List.isEmpty_iff, hne]
      have hlen : (fetch start).1.length = min k (L.length - start) := by
        rw [hk, List.length_take, List.length_drop]
      have hpos : 1 ≤ (fetch start).1.length :=
        List.length_pos.mpr hne
      have hacc2 : acc ++ (fetch start).1 = L.take (start + k) := by
        rw [hacc, hk, List.take_add]
      have hacc2' : acc ++ (fetch start).1 =
          L.take (start + (fetch start).1.length) := by
        rcases le_or_lt k (L.length - start) with hkle | hkgt
        · rw [hacc2, hlen, Nat.min_eq_left hkle]
        · rw [hacc2, hlen, Nat.min_eq_right (Nat.le_of_lt hkgt)]
          rw [List.take_of_length_le (by omega), List.take_of_length_le (by omega)]
      have hlacc2 : (acc ++ (fetch start).1).length =
          min (start + k) L.length := by
        rw [hacc2, List.length_take]
      rw [extractAllGo, if_neg (by simp [hbe]), htget]
      by_cases hdone : L.length ≤ (acc ++ (fetch start).1).length
      · rw [if_pos hdone]
        have : L.length ≤ start + k := by omega
        simp only [hacc2]
        exact List.take_of_length_le (by omega)
      · rw [if_neg hdone]
        apply ih
        · exact hacc2'
        · omega
        · exact Or.inr rfl
        · omega
    · have hb : (fetch start).1 = [] := hout hge
      rw [extractAllGo, if_pos (by simp [hb])]
      have : start = L.length ∨ L.length < start := by omega
      rw [hacc, List.take_of_length_le hge]

/-- One page of the `pay-statement-query` response, as branched on by
`list_all_payslips`: a bare JSON list (`total = len(data)`), a dict with a
`data` key (and `total` defaulting to the batch length), or anything else
("Unexpected response structure", which stops the loop).  The HTTP transport
around the listing (session check, status codes, JSON decoding) is not
modelled; every claim about the listing concerns well-formed responses. -/
inductive QueryResp where
  | asList (batch : List Json)
  | asDict (batch : List Json) (total : Option Nat)
  | unexpected

/-- Worker for `PayslipSyncer.list_all_payslips`.  Unlike the extractor, the
total is re-read from every response, and the loop checks
`len(all) >= total or len(batch) == 0` after extending. -/
def listAllGo (pages : Nat → QueryResp) :
    Nat → Nat → List Json → Nat → List Json × Nat
  | 0, _, acc, reqs => (acc, reqs)
  | fuel + 1, start, acc, reqs =>
    match pages start with
    | .unexpected => (acc, reqs + 1)
    | .asList batch =>
      if batch.length ≤ (acc ++ batch).length ∨ batch.isEmpty then
        (acc ++ batch, reqs + 1)
      else listAllGo pages fuel (start + batch.length) (acc ++ batch) (reqs + 1)
    | .asDict batch total? =>
      if total?.getD batch.length ≤ (acc ++ batch).length ∨ batch.isEmpty then
        (acc ++ batch, reqs + 1)
      else listAllGo pages fuel (start + batch.length) (acc ++ batch) (reqs + 1)

/-- `PayslipSyncer.list_all_payslips`: all accumulated payslip summaries and
the number of query requests issued. -/
def list_all_payslips (pages : Nat → QueryResp) (fuel : Nat) :
    List Json × Nat :=
  listAllGo pages fuel 0 [] 0

/-- A well-behaved listing server holding the collection `L`, responding in
the dict shape with the correct total: inside the collection it returns a
nonempty initial segment of the remainder, past the end an empty page. -/
def ChunkedPages (L : List Json) (pages : Nat → QueryResp) : Prop :=
  ∀ start,
    (start < L.length → ∃ k, pages start = .asDict ((L.drop start).take k)
      (some L.length) ∧ (L.drop start).take k ≠ []) ∧
    (L.length ≤ start → pages start = .asDict [] (some L.length))

/-- Against any well-behaved listing server holding `L`, the
`list_all_payslips` loop starting from a consistent intermediate state
returns exactly `L`. -/
theorem listAllGo_chunked (L : List Json) (pages : Nat → QueryResp)
    (hp : ChunkedPages L pages) :
    ∀ fuel start acc reqs, acc = L.take start → start ≤ L.length →
      L.length - start < fuel →
      (listAllGo pages fuel start acc reqs).1 = L := by
  intro fuel
  induction fuel with
  | zero => intro start acc reqs _ _ hcontra; omega
  | succ f ih =>
    intro start acc reqs hacc hstart hfuel
    obtain ⟨hin, hout⟩ := hp start
    rcases Nat.lt_or_ge start L.length with hlt | hge
    · obtain ⟨k, hpage, hne⟩ := hin hlt
      have hlen : ((L.drop start).take k).length = min k (L.length - start) := by
        rw [List.length_take, List.length_drop]
      have hpos : 1 ≤ ((L.drop start).take k).length :=
        List.length_pos.mpr hne
      have hacc2 : acc ++ (L.drop start).take k = L.take (start + k) := by
        rw [hacc, List.take_add]
      have hacc2' : acc ++ (L.drop start).take k =
          L.take (start + ((L.drop start).take k).length) := by
        rcases le_or_lt k (L.length - start) with hkle | hkgt
        · rw [hacc2, hlen, Nat.min_eq_left hkle]
        · rw [hacc2, hlen, Nat.min_eq_right (Nat.le_of_lt hkgt)]
          rw [List.take_of_length_le (by omega), List.take_of_length_le (by omega)]
      have hlacc2 : (acc ++ (L.drop start).take k).length =
          min (start + k) L.length := by
        rw [hacc2, List.length_take]
      rw [listAllGo, hpage]
      simp only [Option.getD_some]
      by_cases hdone : L.length ≤ (acc ++ (L.drop start).take k).length
      · rw [if_pos (Or.inl hdone)]
        simp only [hacc2]
        exact List.take_of_length_le (by omega)
      · rw [if_neg (by
          simp only [List.isEmpty_iff]
          push_neg
          exact ⟨by omega, hne⟩)]
        apply ih
        · exact hacc2'
        · omega
        · omega
    · have hpage := hout hge
      rw [listAllGo, hpage]
      simp only [Option.getD_some, List.append_nil, List.isEmpty_nil, or_true,
        if_true]
      rw [hacc, List.take_of_length_le hge]

/-- A server that slices `L` into pages of (at most) `p` records. -/
def sliceFetch {α : Type} (L : List α) (p : Nat) : Nat → List α × Nat :=
  fun start => ((L.drop start).take p, L.length)

theorem sliceFetch_chunked {α : Type} (L : List α) (p : Nat) (hp : 1 ≤ p) :
    ChunkedFetch L (sliceFetch L p) := by
  intro start
  refine ⟨rfl, fun hlt => ⟨?_, p, rfl⟩, fun hge => ?_⟩
  · show (L.drop start).take p ≠ []
    intro hnil
    have hl : ((L.drop start).take p).length = min p (L.length - start) := by
      rw [List.length_take, List.length_drop]
    rw [hnil] at hl
    simp at hl
    omega
  · show (L.drop start).take p = []
    rw [List.drop_eq_nil_of_le hge, List.take_nil]

/-- A listing server that slices `L` into dict-shaped pages of (at most) `p`
records with the correct total. -/
def slicePages (L : List Json) (p : Nat) : Nat → QueryResp :=
  fun start => .asDict ((L.drop start).take p) (some L.length)

theorem slicePages_chunked (L : List Json) (p : Nat) (hp : 1 ≤ p) :
    ChunkedPages L (slicePages L p) := by
  intro start
  refine ⟨fun hlt => ⟨p, rfl, ?_⟩, fun hge => ?_⟩
  · show (L.drop start).take p ≠ []
    intro hnil
    have hl : ((L.drop start).take p).length = min p (L.length - start) := by
      rw [List.length_take, List.length_drop]
    rw [hnil] at hl
    simp at hl
    omega
  · show QueryResp.asDict ((L.drop start).take p) (some L.length) =
      QueryResp.asDict [] (some L.length)
    rw [List.drop_eq_nil_of_le hge, List.take_nil]

/-- The claim's end-to-end scenario server for the extractor: total 4, two
short pages of 2 records each (shorter than the requested page size of 3,
which never enters the loop arithmetic).  The second page sits at offset 2 —
the offset a size-3 advance would skip. -/
def fetchScenario : Nat → List Nat × Nat := fun start =>
  if start = 0 then ([10, 11], 4)
  else if start = 2 then ([12, 13], 4)
  else ([], 4)

/-- The same scenario for the payslip lister, in dict shape. -/
def pagesScenario : Nat → QueryResp := fun start =>
  if start = 0 then .asDict [.str "r0", .str "r1"] (some 4)
  else if start = 2 then .asDict [.str "r2", .str "r3"] (some 4)
  else .asDict [] (some 4)

/-- C4: both listing loops (`extract_all` and `list_all_payslips`) advance
the offset by the number of records actually returned and stop on an empty
page or when the accumulated count reaches the reported total: against any
well-behaved chunked server holding a collection `L` — short pages included —
they return exactly `L`; and on the claim's scenario (total 4, two short
pages of 2 records under a requested page size of 3) they return exactly the
4 records in 2 requests, without a third. -/
theorem c4_pagination :
    (∀ (α : Type) (L : List α) (fetch : Nat → List α × Nat),
      ChunkedFetch L fetch → ∀ fuel, L.length < fuel →
      (extract_all fetch fuel).1 = L) ∧
    (∀ (L : List Json) (pages : Nat → QueryResp),
      ChunkedPages L pages → ∀ fuel, L.length < fuel →
      (list_all_payslips pages fuel).1 = L) ∧
    extract_all fetchScenario 10 = ([10, 11, 12, 13], 2) ∧
    list_all_payslips pagesScenario 10 =
      ([.str "r0", .str "r1", .str "r2", .str "r3"], 2) := by
  refine ⟨?_, ?_, by decide, by rfl⟩
  · intro α L fetch hf fuel hfuel
    exact extractAllGo_chunked L fetch hf fuel 0 [] 0 none rfl (by omega)
      (Or.inl rfl) (by omega)
  · intro L pages hp fuel hfuel
    exact listAllGo_chunked L pages hp fuel 0 [] 0 rfl (by omega) (by omega)

/-- Witness for `c4_pagination`: slicing the collection `[5, 6, 7]` into
pages of 2 yields the whole collection, for both loops. -/
theorem c4_pagination_witness :
    (extract_all (sliceFetch [5, 6, 7] 2) 4).1 = [5, 6, 7] ∧
    (list_all_payslips (slicePages [.num 5, .num 6, .num 7] 2) 4).1 =
      [.num 5, .num 6, .num 7] :=
  ⟨c4_pagination.1 Nat [5, 6, 7] (sliceFetch [5, 6, 7] 2)
      (sliceFetch_chunked _ 2 (by omega)) 4 (by decide),
    c4_pagination.2.1 [.num 5, .num 6, .num 7]
      (slicePages [.num 5, .num 6, .num 7] 2)
      (slicePages_chunked _ 2 (by omega)) 4 (by decide)⟩

/-!
## The payslip sync (`payslip_sync.py`)

The pieces of the model:
* a payslip summary (an element of the listing) is a `Json` value;
* the index is `IndexData` (`payslips` dict, `total_count`, `last_sync`);
* the filesystem is the list of existing paths; file contents are not
  tracked (no claim depends on them);
* `datetime.now()` is a step counter threaded through the state, so
  `cached_at`/`last_sync` are the counter values at the call;
* the detail endpoint and the PDF endpoint are server functions in the
  environment; an optional interrupt index models a `KeyboardInterrupt`
  arriving at the start of that iteration of the download loop;
* printed per-record extraction warnings are counted in the state.
-/

/-- `PayslipSyncer.CACHE_DIR`. -/
def CACHE_DIR : String := ".cache/payslips"

/-- One value of the `payslips` dict of `index.json`, as written by
`mark_cached` (which always sets a string `json_path`; the empty string
stands for a falsy value when modelling `if json_path:`). -/
structure Entry where
  pay_date : String
  json_path : String
  pdf_path : Option String
  cached_at : Nat
deriving Repr, DecidableEq

/-- The index file contents (`PayslipIndex._data` after `load`): the
`payslips` dict plus `total_count` and the optional `last_sync`. -/
structure IndexData where
  payslips : List (String × Entry)
  total_count : Nat
  last_sync : Option Nat
deriving Repr, DecidableEq

/-- `PayslipIndex.load` from the on-disk file: a missing file yields the
empty structure (the corrupted-file branch, which also yields the empty
structure after a warning, is not distinguished). -/
def loadIndex (disk : Option IndexData) : IndexData :=
  match disk with
  | some d => d
  | none => { payslips := [], total_count := 0, last_sync := none }

/-- `PayslipIndex.is_cached`: false when the id is absent; with
`verify_exists` (the default used by `sync_all`), a truthy `json_path` must
also exist on disk under the cache directory. -/
def is_cached (fs : List String) (idx : IndexData) (encoded_id : String)
    (verify_exists : Bool := true) : Bool :=
  match lookupA idx.payslips encoded_id with
  | none => false
  | some entry =>
    if !verify_exists then true
    else if entry.json_path ≠ "" then
      decide ((CACHE_DIR ++ "/" ++ entry.json_path) ∈ fs)
    else true

/-- `PayslipIndex.mark_cached` at clock value `now`. -/
def mark_cached (idx : IndexData) (now : Nat) (encoded_id pay_date : String)
    (json_path : String) (pdf_path : Option String) : IndexData :=
  { idx with payslips :=
      updateA idx.payslips encoded_id ⟨pay_date, json_path, pdf_path, now⟩ }

/-- `PayslipIndex.save` at clock value `now`: refresh `last_sync`, recompute
`total_count`, write out. -/
def IndexData.saved (idx : IndexData) (now : Nat) : IndexData :=
  { idx with last_sync := some now, total_count := idx.payslips.length }

/-- Python `key in container` for a JSON value: key membership for dicts,
element equality for lists, substring test for strings, `TypeError`
otherwise. -/
def pyContains (container : Json) (key : String) : Except PyExn Bool :=
  match container with
  | .obj fields => .ok (lookupA fields key).isSome
  | .arr elems => .ok (elems.any fun e =>
      match e with
      | .str t => t = key
      | _ => false)
  | .str s => .ok (substrIn key s)
  | _ => .error .typeError

/-- Python `container[key]` with a string key, called only after a true
containment test: dict lookup, `TypeError` for every other type (list and
string indices must be integers). -/
def pyIndex (container : Json) (key : String) : Except PyExn Json :=
  match container with
  | .obj fields => .ok ((lookupA fields key).getD .null)
  | _ => .error .typeError

/-- The field names tried by `_get_pay_date`. -/
def payDateFields : List String :=
  ["payDate", "pay_date", "paymentDate", "date", "periodEndDate"]

/-- Worker for `_get_pay_date`: first field that is present with a string
value wins; the value is truncated at `T`. -/
def getPayDateGo (ps : Json) : List String → Except PyExn String
  | [] => .ok "unknown"
  | f :: rest => do
    let present ← pyContains ps f
    if present then
      let v ← pyIndex ps f
      match v with
      | .str s => return (pySplit s "T").headD ""
      | _ => getPayDateGo ps rest
    else getPayDateGo ps rest

/-- `PayslipSyncer._get_pay_date`. -/
def _get_pay_date (ps : Json) : Except PyExn String :=
  getPayDateGo ps payDateFields

/-- The fallback field names tried by `_get_encoded_id`. -/
def idFallbackFields : List String :=
  ["id", "encodedId", "encoded_id", "payStatementId"]

/-- Worker for the fallback loop of `_get_encoded_id`: first present and
truthy field wins, rendered through `str()`; exhaustion raises the
`ValueError` ("Could not find ID in payslip"). -/
def getIdFallbackGo (ps : Json) : List String → Except PyExn String
  | [] => .error .valueError
  | f :: rest => do
    let present ← pyContains ps f
    if present then
      let v ← pyIndex ps f
      if v.truthy then return v.pyStr else getIdFallbackGo ps rest
    else getIdFallbackGo ps rest

/-- The `uri.get("href") if isinstance(uri, dict) else uri` step shared by
`_get_encoded_id` and `_get_pdf_info`. -/
def hrefOf (uri : Json) : Json :=
  match uri with
  | .obj ufields => (lookupA ufields "href").getD .null
  | _ => uri

/-- Python `needle in href` for the already-truthy `href` value: substring
test on strings; membership on containers (a hit there would make the
subsequent `.split` raise `AttributeError`); `TypeError` on numbers and
`True`. -/
def hrefContains (href : Json) (needle : String) : Except PyExn Bool :=
  match href with
  | .str s => .ok (substrIn needle s)
  | .arr elems =>
    if elems.any (fun e => match e with | .str t => t = needle | _ => false)
    then .error .attributeError else .ok false
  | .obj fields =>
    if (lookupA fields needle).isSome then .error .attributeError else .ok false
  | _ => .error .typeError

/-- `PayslipSyncer._get_encoded_id`: prefer the path segment after
`/payStatement/` in `payDetailUri`'s href; fall back to the first truthy
field among `idFallbackFields`; otherwise raise `ValueError`. -/
def _get_encoded_id (ps : Json) : Except PyExn String := do
  let hasPDU ← pyContains ps "payDetailUri"
  if hasPDU then
    let uri ← pyIndex ps "payDetailUri"
    let href := hrefOf uri
    if href.truthy then
      let hit ← hrefContains href "/payStatement/"
      if hit then
        match href with
        | .str s => return ((pySplit s "/payStatement/").drop 1).headD ""
        | _ => .error .attributeError
      else getIdFallbackGo ps idFallbackFields
    else getIdFallbackGo ps idFallbackFields
  else getIdFallbackGo ps idFallbackFields

/-- `PayslipSyncer._get_pdf_info`: both ids come from `statementImageUri`'s
href, of the form `.../payStatement/{sid}/images/{iid}.pdf`; either may be
absent. -/
def _get_pdf_info (ps : Json) : Except PyExn (Option String × Option String) := do
  let hasSIU ← pyContains ps "statementImageUri"
  if hasSIU then
    let uri ← pyIndex ps "statementImageUri"
    let href := hrefOf uri
    if href.truthy then
      let hit1 ← hrefContains href "/payStatement/"
      if hit1 then
        let hit2 ← hrefContains href "/images/"
        if hit2 then
          match href with
          | .str s =>
            let after := ((pySplit s "/payStatement/").drop 1).headD ""
            let statement_id := (pySplit after "/images/").headD ""
            let filename := ((pySplit s "/images/").drop 1).headD ""
            if listStartsWith ".pdf".data.reverse filename.data.reverse then
              return (some statement_id,
                some (String.mk (filename.data.take (filename.data.length - 4))))
            else return (some statement_id, none)
          | _ => .error .attributeError
        else return (none, none)
      else return (none, none)
    else return (none, none)
  else return (none, none)

/-- `PayslipSyncer._build_pdf_api_url`. -/
def _build_pdf_api_url (statement_id image_id : String) : String :=
  "https://ihcm.adp.com/whrmux/webapi/api/pay/payslip/file?statementId=" ++
    statement_id ++ "&imageId=" ++ image_id ++ "&imageType=pdf"

/-- Leap year (Gregorian). -/
def isLeap (y : Nat) : Bool := (y % 4 = 0 ∧ y % 100 ≠ 0) ∨ y % 400 = 0

/-- Days in a month. -/
def daysInMonth (y m : Nat) : Nat :=
  if m = 2 then (if isLeap y then 29 else 28)
  else if m = 4 ∨ m = 6 ∨ m = 9 ∨ m = 11 then 30
  else 31

/-- `datetime.fromisoformat` on the date part, in the canonical
`YYYY-MM-DD` form the pay dates use (other ISO-8601 spellings accepted by
Python 3.11+ are not modelled): returns `(year, month)` on success, `none`
for the `ValueError` branch. -/
def parseIsoDate (s : String) : Option (Nat × Nat) :=
  match s.data with
  | [y1, y2, y3, y4, '-', m1, m2, '-', d1, d2] =>
    match digitVal y1, digitVal y2, digitVal y3, digitVal y4,
        digitVal m1, digitVal m2, digitVal d1, digitVal d2 with
    | some a, some b, some c, some d, some e, some f, some g, some h =>
      let y := ((a * 10 + b) * 10 + c) * 10 + d
      let m := e * 10 + f
      let dd := g * 10 + h
      if 1 ≤ y ∧ 1 ≤ m ∧ m ≤ 12 ∧ 1 ≤ dd ∧ dd ≤ daysInMonth y m then
        some (y, m)
      else none
    | _, _, _, _, _, _, _, _ => none
  | _ => none

/-- Zero-padded two-digit month (`f"{dt.month:02d}"`). -/
def pad2 (n : Nat) : String := if n < 10 then "0" ++ toString n else toString n

/-- `PayslipSyncer._make_file_path` relative to the cache directory (the
code builds the absolute path and sync relativizes it back with
`relative_to(CACHE_DIR)`; the model composes the same segments):
`{year}/{month}/{pay_date}.{extension}`, with `unknown` components when the
date part of `pay_date` does not parse. -/
def makeRelPath (pay_date extension : String) : String :=
  match parseIsoDate ((pySplit pay_date "T").headD "") with
  | some (y, m) => toString y ++ "/" ++ pad2 m ++ "/" ++ pay_date ++ "." ++ extension
  | none => "unknown/unknown/" ++ pay_date ++ "." ++ extension

/-- The response of the detail endpoint
(`GET .../pay-statement/{encoded_id}`), as branched on by
`fetch_payslip_detail` and `_check_session_valid`: a 200 with a JSON body, a
401, a login page instead of JSON, a 404, another status, or a 200 whose
body fails JSON decoding. -/
inductive DetailResp where
  | ok (detail : Json)
  | status401
  | htmlLogin
  | notFound
  | httpError (code : Nat)
  | badJson

/-- Exceptions that can escape `sync_all`: a `RuntimeError` carrying its
message, the `requests` `JSONDecodeError` from `response.json()` (never
caught in `sync_all`), a `KeyboardInterrupt`, or an uncaught helper
exception. -/
inductive SyncExn where
  | runtime (msg : String)
  | jsonDecode
  | interrupt
  | py (e : PyExn)
deriving Repr, DecidableEq

/-- The message raised for a 401 (`_check_session_valid`). -/
def msg401 : String :=
  "Authentication failed (401). Session may have expired.\nTry running with --clear-cache to force fresh authentication."

/-- The message raised for a login page instead of JSON
(`_check_session_valid`). -/
def msgHtml : String :=
  "Session expired - received login page instead of JSON.\nTry running with --clear-cache to force fresh authentication."

/-- The world `sync_all` runs against: the listing server with its fuel, the
detail server, the PDF endpoint (did a download yield bytes?), and the
iteration of the download loop at whose start a `KeyboardInterrupt` arrives,
if any. -/
structure SyncEnv where
  pages : Nat → QueryResp
  listFuel : Nat
  detail : String → DetailResp
  pdfOk : String → Bool
  interruptAt : Option Nat

/-- The machine state threaded through a sync run: existing file paths, the
on-disk index file, the clock counter, and observation logs — ids passed to
the detail fetch, JSON/PDF paths written, and the count of per-record
extraction warnings printed. -/
structure SyncState where
  fs : List String
  disk : Option IndexData
  clock : Nat
  fetchLog : List String
  jsonWrites : List String
  pdfWrites : List String
  warnings : Nat
deriving Repr, DecidableEq

/-- `PayslipSyncer.fetch_payslip_detail`: raises `RuntimeError` with the
session-check or status messages, propagates the JSON decoding error of
`response.json()`, and returns the detail JSON on success. -/
def fetch_payslip_detail (env : SyncEnv) (encoded_id : String) :
    Except SyncExn Json :=
  match env.detail encoded_id with
  | .ok j => .ok j
  | .status401 => .error (.runtime msg401)
  | .htmlLogin => .error (.runtime msgHtml)
  | .notFound => .error (.runtime ("Payslip not found: " ++ encoded_id))
  | .httpError code =>
    .error (.runtime ("Failed to fetch payslip detail: HTTP " ++ toString code))
  | .badJson => .error .jsonDecode

/-- The test of `sync_all`'s `except RuntimeError` clause:
`"401" in str(e) or "expired" in str(e).lower()`. -/
def isSessionExpiryMsg (msg : String) : Bool :=
  substrIn "401" msg || substrIn "expired" (pyLower msg)

/-- The first pass of `sync_all` over the listed summaries: collect those
whose extracted id is not cached (in listing order), counting the records
whose extraction raises the caught `ValueError` (each prints a warning); any
other exception propagates. -/
def scanMissing (fs : List String) (idx : IndexData) :
    List Json → Except PyExn (List Json × Nat)
  | [] => .ok ([], 0)
  | ps :: rest =>
    match _get_encoded_id ps with
    | .ok encoded_id =>
      (scanMissing fs idx rest).map fun mw =>
        (if !is_cached fs idx encoded_id then ps :: mw.1 else mw.1, mw.2)
    | .error .valueError =>
      (scanMissing fs idx rest).map fun mw => (mw.1, mw.2 + 1)
    | .error e => .error e

/-- The data the loop extracts from one well-formed missing record: the
summary itself, its encoded id, its pay date, and its PDF ids.  A proof
vehicle, not part of the program. -/
structure RecInfo where
  ps : Json
  id : String
  pd : String
  sid : Option String
  iid : Option String

/-- The record's extraction helpers succeed with the recorded values. -/
def Extracts (r : RecInfo) : Prop :=
  _get_encoded_id r.ps = .ok r.id ∧ _get_pay_date r.ps = .ok r.pd ∧
    _get_pdf_info r.ps = .ok (r.sid, r.iid)

/-- The `pdf_rel_path` the loop computes for a record: only when PDFs are
enabled, both ids are present, and the endpoint returns bytes. -/
def pdfRelOf (env : SyncEnv) (skip_pdf : Bool) (r : RecInfo) : Option String :=
  match skip_pdf, r.sid, r.iid with
  | false, some sid, some iid =>
    if env.pdfOk (_build_pdf_api_url sid iid) then some (makeRelPath r.pd "pdf")
    else none
  | _, _, _ => none

/-- State effect of one successful iteration of the download loop. -/
def stepState (env : SyncEnv) (skip_pdf : Bool) (r : RecInfo)
    (s : SyncState) : SyncState :=
  let json_full := CACHE_DIR ++ "/" ++ makeRelPath r.pd "json"
  let s2 : SyncState :=
    { s with fetchLog := s.fetchLog ++ [r.id],
             fs := json_full :: s.fs,
             jsonWrites := s.jsonWrites ++ [json_full] }
  let s3 : SyncState :=
    match pdfRelOf env skip_pdf r with
    | some prel =>
      { s2 with fs := (CACHE_DIR ++ "/" ++ prel) :: s2.fs,
                pdfWrites := s2.pdfWrites ++ [CACHE_DIR ++ "/" ++ prel] }
    | none => s2
  { s3 with clock := s3.clock + 1 }

/-- Index effect of one successful iteration, at clock `c`. -/
def stepIdx (env : SyncEnv) (skip_pdf : Bool) (r : RecInfo) (idx : IndexData)
    (c : Nat) : IndexData :=
  mark_cached idx c r.id r.pd (makeRelPath r.pd "json") (pdfRelOf env skip_pdf r)

/-- One successful iteration of the download loop (the body of the `try`
from the successful detail fetch onward, including the fetch-log append):
write the JSON artifact, optionally fetch and write the PDF, record the
entry via `mark_cached` at the current clock, tick the clock. -/
def stepRec (env : SyncEnv) (skip_pdf : Bool) (r : RecInfo) (idx : IndexData)
    (s : SyncState) : IndexData × SyncState :=
  let s1 : SyncState := { s with fetchLog := s.fetchLog ++ [r.id] }
  let json_rel := makeRelPath r.pd "json"
  let json_full := CACHE_DIR ++ "/" ++ json_rel
  let s2 : SyncState := { s1 with fs := json_full :: s1.fs,
                                  jsonWrites := s1.jsonWrites ++ [json_full] }
  let pr : Option String × SyncState :=
    match skip_pdf, r.sid, r.iid with
    | false, some sid, some iid =>
      if env.pdfOk (_build_pdf_api_url sid iid) then
        (some (makeRelPath r.pd "pdf"),
          { s2 with
            fs := (CACHE_DIR ++ "/" ++ makeRelPath r.pd "pdf") :: s2.fs,
            pdfWrites := s2.pdfWrites ++
              [CACHE_DIR ++ "/" ++ makeRelPath r.pd "pdf"] })
      else (none, s2)
    | _, _, _ => (none, s2)
  (mark_cached idx pr.2.clock r.id r.pd json_rel pr.1,
    { pr.2 with clock := pr.2.clock + 1 })

/-- `stepRec` in terms of the tidy `stepIdx`/`stepState` decomposition. -/
theorem stepRec_eq (env : SyncEnv) (skip_pdf : Bool) (r : RecInfo)
    (idx : IndexData) (s : SyncState) :
    stepRec env skip_pdf r idx s =
      (stepIdx env skip_pdf r idx s.clock, stepState env skip_pdf r s) := by
  unfold stepRec stepIdx stepState pdfRelOf
  rcases skip_pdf with _ | _ <;>
    rcases hs : r.sid with _ | sid <;>
      rcases hi : r.iid with _ | iid <;>
        simp only [hs, hi] <;>
        first
          | rfl
          | (by_cases hok : env.pdfOk (_build_pdf_api_url sid iid) <;>
              simp [hok])

/-- The index and state after an all-successful run over the records. -/
def runRecs (env : SyncEnv) (skip_pdf : Bool) :
    List RecInfo → IndexData × SyncState → IndexData × SyncState
  | [], p => p
  | r :: rest, (idx, s) =>
    runRecs env skip_pdf rest (stepRec env skip_pdf r idx s)

/-- The per-record download loop of `sync_all` over the missing summaries
(`i` is the iteration counter, for placing the modelled interrupt).  Each
iteration re-extracts the ids (outside the `try`, so an extraction error now
propagates uncaught), logs and performs the detail fetch, writes the JSON
artifact, optionally fetches and writes the PDF, and records the entry via
`mark_cached`.  A `RuntimeError` whose message mentions `401` or `expired`
saves the index and re-raises; any other `RuntimeError` prints `FAILED` and
continues with the next record; every other exception — including a
`KeyboardInterrupt` — propagates without a save.  Returns the raised
exception (if any), the in-memory index, the newly-downloaded count, and the
final state. -/
def downloadLoop (env : SyncEnv) (skip_pdf : Bool) :
    List Json → Nat → IndexData → Nat → SyncState →
    Option SyncExn × IndexData × Nat × SyncState
  | [], _, idx, newly, s => (none, idx, newly, s)
  | ps :: rest, i, idx, newly, s =>
    if env.interruptAt = some i then (some .interrupt, idx, newly, s)
    else
      match _get_encoded_id ps with
      | .error e => (some (.py e), idx, newly, s)
      | .ok encoded_id =>
        match _get_pay_date ps with
        | .error e => (some (.py e), idx, newly, s)
        | .ok pay_date =>
          match _get_pdf_info ps with
          | .error e => (some (.py e), idx, newly, s)
          | .ok (statement_id, image_id) =>
            match fetch_payslip_detail env encoded_id with
            | .ok _detail =>
              downloadLoop env skip_pdf rest (i + 1)
                (stepRec env skip_pdf
                  ⟨ps, encoded_id, pay_date, statement_id, image_id⟩ idx s).1
                (newly + 1)
                (stepRec env skip_pdf
                  ⟨ps, encoded_id, pay_date, statement_id, image_id⟩ idx s).2
            | .error (.runtime msg) =>
              if isSessionExpiryMsg msg then
                (some (.runtime msg), idx.saved s.clock, newly,
                  { s with fetchLog := s.fetchLog ++ [encoded_id],
                           disk := some (idx.saved s.clock),
                           clock := s.clock + 1 })
              else
                downloadLoop env skip_pdf rest (i + 1) idx newly
                  { s with fetchLog := s.fetchLog ++ [encoded_id] }
            | .error e =>
              (some e, idx, newly,
                { s with fetchLog := s.fetchLog ++ [encoded_id] })

/-- `PayslipSyncer.sync_all`: load the index, list the remote collection,
compute the missing records against the loaded index and the current
filesystem, download them, and save.  An empty listing returns `(0, 0, 0)`
without saving; when nothing is missing the index is saved and
`(total, cached, 0)` returned; otherwise the download loop runs and — unless
it raised — the index is saved and `(total, cached, newly)` returned.  The
result carries the outcome, the in-memory index, and the final state. -/
def sync_all (env : SyncEnv) (skip_pdf : Bool) (s : SyncState) :
    Except SyncExn (Nat × Nat × Nat) × IndexData × SyncState :=
  if (list_all_payslips env.pages env.listFuel).1.isEmpty then
    (.ok (0, 0, 0), loadIndex s.disk, s)
  else
    match scanMissing s.fs (loadIndex s.disk)
        (list_all_payslips env.pages env.listFuel).1 with
    | .error e => (.error (.py e), loadIndex s.disk, s)
    | .ok (missing, warn) =>
      if missing.isEmpty then
        (.ok ((list_all_payslips env.pages env.listFuel).1.length,
            (list_all_payslips env.pages env.listFuel).1.length -
              missing.length, 0),
          (loadIndex s.disk).saved s.clock,
          { s with warnings := s.warnings + warn,
                   disk := some ((loadIndex s.disk).saved s.clock),
                   clock := s.clock + 1 })
      else
        match downloadLoop env skip_pdf missing 0 (loadIndex s.disk) 0
            { s with warnings := s.warnings + warn } with
        | (some e, idx2, _, s2) => (.error e, idx2, s2)
        | (none, idx2, newly, s2) =>
          (.ok ((list_all_payslips env.pages env.listFuel).1.length,
              (list_all_payslips env.pages env.listFuel).1.length -
                missing.length, newly),
            idx2.saved s2.clock,
            { s2 with disk := some (idx2.saved s2.clock),
                      clock := s2.clock + 1 })

theorem lookupA_updateA_self {α : Type} (l : List (String × α)) (k : String)
    (v : α) : lookupA (updateA l k v) k = some v := by
  induction l with
  | nil => simp [updateA, lookupA]
  | cons hd tl ih =>
    by_cases h : hd.1 = k
    · simp [updateA, h, lookupA]
    · simp [updateA, h, lookupA, ih]

theorem lookupA_updateA_ne {α : Type} (l : List (String × α)) (k k' : String)
    (v : α) (h : k ≠ k') : lookupA (updateA l k v) k' = lookupA l k' := by
  induction l with
  | nil => simp [updateA, lookupA, h]
  | cons hd tl ih =>
    by_cases hh : hd.1 = k
    · have hne : hd.1 ≠ k' := by rw [hh]; exact h
      simp only [updateA, if_pos hh, lookupA, if_neg h, if_neg hne]
    · simp only [updateA, if_neg hh, lookupA]
      by_cases hk' : hd.1 = k'
      · rw [if_pos hk', if_pos hk']
      · rw [if_neg hk', if_neg hk', ih]

theorem keys_updateA_of_notMem {α : Type} (l : List (String × α)) (k : String)
    (v : α) (h : lookupA l k = none) :
    (updateA l k v).map Prod.fst = l.map Prod.fst ++ [k] := by
  induction l with
  | nil => simp [updateA]
  | cons hd tl ih =>
    simp only [lookupA] at h
    by_cases hh : hd.1 = k
    · rw [if_pos hh] at h; exact absurd h (by simp)
    · rw [if_neg hh] at h
      simp [updateA, hh, ih h]



/-- A record set the loop fully succeeds on: extraction succeeds and the
detail endpoint answers 200 with JSON for each record. -/
def GoodRecs (env : SyncEnv) (recs : List RecInfo) : Prop :=
  ∀ r ∈ recs, Extracts r ∧ ∃ j, env.detail r.id = .ok j

/-- With no interrupt and an all-successful record set, the download loop is
exactly the `stepRec` fold: no exception, `newly` increased by the number of
records, and the index and state those of `runRecs`. -/
theorem downloadLoop_success (env : SyncEnv) (skip_pdf : Bool)
    (hnoint : env.interruptAt = none) :
    ∀ recs : List RecInfo, GoodRecs env recs →
    ∀ (i newly : Nat) (idx : IndexData) (s : SyncState),
      downloadLoop env skip_pdf (recs.map RecInfo.ps) i idx newly s =
        (none, (runRecs env skip_pdf recs (idx, s)).1, newly + recs.length,
          (runRecs env skip_pdf recs (idx, s)).2) := by
  intro recs
  induction recs with
  | nil => intro _ i newly idx s; simp [downloadLoop, runRecs]
  | cons r rest ih =>
    intro hgood i newly idx s
    obtain ⟨⟨hid, hpd, hpdfi⟩, j, hdet⟩ := hgood r (by simp)
    have hrest : GoodRecs env rest := fun r' hr' => hgood r' (by simp [hr'])
    simp only [List.map_cons, downloadLoop, hnoint, if_neg (by simp :
      ¬((none : Option Nat) = some i)), hid, hpd, hpdfi,
      fetch_payslip_detail, hdet]
    rw [ih hrest]
    have : runRecs env skip_pdf (r :: rest) (idx, s) =
        runRecs env skip_pdf rest (stepRec env skip_pdf r idx s) := rfl
    rw [this]
    have harith : newly + 1 + rest.length = newly + (rest.length + 1) := by omega
    rw [show (r :: rest).length = rest.length + 1 from rfl, ← harith]

/-- Projections of one step's state effect. -/
theorem stepState_proj (env : SyncEnv) (sp : Bool) (r : RecInfo)
    (s : SyncState) :
    (stepState env sp r s).disk = s.disk ∧
    (stepState env sp r s).fetchLog = s.fetchLog ++ [r.id] ∧
    (stepState env sp r s).jsonWrites =
      s.jsonWrites ++ [CACHE_DIR ++ "/" ++ makeRelPath r.pd "json"] ∧
    (stepState env sp r s).warnings = s.warnings ∧
    (stepState env sp r s).clock = s.clock + 1 := by
  unfold stepState
  cases pdfRelOf env sp r <;> simp

/-- One step's filesystem effect: the JSON artifact path (and possibly a PDF
path) is pushed onto the existing paths. -/
theorem stepState_fs (env : SyncEnv) (sp : Bool) (r : RecInfo)
    (s : SyncState) :
    ∃ extra, (stepState env sp r s).fs =
      extra ++ (CACHE_DIR ++ "/" ++ makeRelPath r.pd "json") :: s.fs := by
  unfold stepState
  cases h : pdfRelOf env sp r with
  | none => exact ⟨[], by simp⟩
  | some prel => exact ⟨[CACHE_DIR ++ "/" ++ prel], by simp⟩

/-- The state after an all-successful run: the disk is untouched, the fetch
log gains exactly the record ids in order, the JSON writes gain exactly one
artifact per record, the warning count is unchanged, and the filesystem
retains every old path and contains every record's JSON artifact. -/
theorem runRecs_state (env : SyncEnv) (sp : Bool) :
    ∀ (recs : List RecInfo) (idx : IndexData) (s : SyncState),
      (runRecs env sp recs (idx, s)).2.disk = s.disk ∧
      (runRecs env sp recs (idx, s)).2.fetchLog =
        s.fetchLog ++ recs.map RecInfo.id ∧
      (runRecs env sp recs (idx, s)).2.jsonWrites = s.jsonWrites ++
        recs.map (fun r => CACHE_DIR ++ "/" ++ makeRelPath r.pd "json") ∧
      (runRecs env sp recs (idx, s)).2.warnings = s.warnings ∧
      (∀ p ∈ s.fs, p ∈ (runRecs env sp recs (idx, s)).2.fs) ∧
      (∀ r ∈ recs,
        (CACHE_DIR ++ "/" ++ makeRelPath r.pd "json") ∈
          (runRecs env sp recs (idx, s)).2.fs) := by
  intro recs
  induction recs with
  | nil => intro idx s; simp [runRecs]
  | cons r rest ih =>
    intro idx s
    have hrun : runRecs env sp (r :: rest) (idx, s) =
        runRecs env sp rest (stepIdx env sp r idx s.clock,
          stepState env sp r s) := by
      show runRecs env sp rest (stepRec env sp r idx s) = _
      rw [stepRec_eq]
    obtain ⟨hdisk, hlog, hjw, hwarn, _⟩ := stepState_proj env sp r s
    obtain ⟨extra, hfs⟩ := stepState_fs env sp r s
    obtain ⟨ihdisk, ihlog, ihjw, ihwarn, ihmono, ihall⟩ :=
      ih (stepIdx env sp r idx s.clock) (stepState env sp r s)
    refine ⟨?_, ?_, ?_, ?_, ?_, ?_⟩
    · rw [hrun, ihdisk, hdisk]
    · rw [hrun, ihlog, hlog]; simp
    · rw [hrun, ihjw, hjw]; simp
    · rw [hrun, ihwarn, hwarn]
    · intro p hp
      rw [hrun]
      exact ihmono p (by rw [hfs]; simp [hp])
    · intro r' hr'
      rw [hrun]
      rcases List.mem_cons.mp hr' with h | h
      · subst h
        exact ihmono _ (by rw [hfs]; simp)
      · exact ihall r' h

/-- Ids not belonging to the run are untouched in the index. -/
theorem runRecs_idx_frame (env : SyncEnv) (sp : Bool) :
    ∀ (recs : List RecInfo) (idx : IndexData) (s : SyncState) (id : String),
      id ∉ recs.map RecInfo.id →
      lookupA (runRecs env sp recs (idx, s)).1.payslips id =
        lookupA idx.payslips id := by
  intro recs
  induction recs with
  | nil => intro idx s id _; rfl
  | cons r rest ih =>
    intro idx s id hid
    simp only [List.map_cons, List.mem_cons, not_or] at hid
    have hrun : runRecs env sp (r :: rest) (idx, s) =
        runRecs env sp rest (stepIdx env sp r idx s.clock,
          stepState env sp r s) := by
      show runRecs env sp rest (stepRec env sp r idx s) = _
      rw [stepRec_eq]
    rw [hrun, ih _ _ _ hid.2]
    exact lookupA_updateA_ne _ _ _ _ (fun h => hid.1 h.symm)

/-- On fresh, pairwise-distinct ids the run appends exactly one index key
per record, in order. -/
theorem runRecs_idx_keys (env : SyncEnv) (sp : Bool) :
    ∀ (recs : List RecInfo) (idx : IndexData) (s : SyncState),
      (∀ r ∈ recs, lookupA idx.payslips r.id = none) →
      (recs.map RecInfo.id).Nodup →
      (runRecs env sp recs (idx, s)).1.payslips.map Prod.fst =
        idx.payslips.map Prod.fst ++ recs.map RecInfo.id := by
  intro recs
  induction recs with
  | nil => intro idx s _ _; simp [runRecs]
  | cons r rest ih =>
    intro idx s hfresh hnodup
    simp only [List.map_cons, List.nodup_cons] at hnodup
    have hrun : runRecs env sp (r :: rest) (idx, s) =
        runRecs env sp rest (stepIdx env sp r idx s.clock,
          stepState env sp r s) := by
      show runRecs env sp rest (stepRec env sp r idx s) = _
      rw [stepRec_eq]
    have hfresh' : ∀ r' ∈ rest,
        lookupA (stepIdx env sp r idx s.clock).payslips r'.id = none := by
      intro r' hr'
      show lookupA (updateA idx.payslips r.id _) r'.id = none
      rw [lookupA_updateA_ne _ _ _ _ (fun h => hnodup.1
        (by rw [h]; exact List.mem_map_of_mem RecInfo.id hr'))]
      exact hfresh r' (by simp [hr'])
    rw [hrun, ih _ _ hfresh' hnodup.2]
    show (updateA idx.payslips r.id _).map Prod.fst ++ _ = _
    rw [keys_updateA_of_notMem _ _ _ (hfresh r (by simp))]
    simp

/-- Every record of the run ends with an index entry holding its pay date,
JSON artifact path, and PDF decision (the `cached_at` clock value varies
with the record's position). -/
theorem runRecs_idx_lookup (env : SyncEnv) (sp : Bool) :
    ∀ (recs : List RecInfo) (idx : IndexData) (s : SyncState),
      (recs.map RecInfo.id).Nodup →
      ∀ r ∈ recs, ∃ c,
        lookupA (runRecs env sp recs (idx, s)).1.payslips r.id =
          some ⟨r.pd, makeRelPath r.pd "json", pdfRelOf env sp r, c⟩ := by
  intro recs
  induction recs with
  | nil => intro idx s _ r hr; exact absurd hr (by simp)
  | cons r0 rest ih =>
    intro idx s hnodup r hr
    simp only [List.map_cons, List.nodup_cons] at hnodup
    have hrun : runRecs env sp (r0 :: rest) (idx, s) =
        runRecs env sp rest (stepIdx env sp r0 idx s.clock,
          stepState env sp r0 s) := by
      show runRecs env sp rest (stepRec env sp r0 idx s) = _
      rw [stepRec_eq]
    rcases List.mem_cons.mp hr with h | h
    · subst h
      refine ⟨s.clock, ?_⟩
      rw [hrun, runRecs_idx_frame env sp rest _ _ _ hnodup.1]
      exact lookupA_updateA_self _ _ _
    · rw [hrun]
      exact ih _ _ hnodup.2 r h

/-- A listed summary as the scan sees it: well-formed (extraction succeeds,
as captured by a `RecInfo`) or broken (extraction raises the caught
`ValueError`).  A proof vehicle, not part of the program. -/
inductive ListedRec where
  | good (r : RecInfo)
  | bad (ps : Json)

/-- The underlying summary. -/
def ListedRec.summary : ListedRec → Json
  | .good r => r.ps
  | .bad ps => ps

/-- Is this the broken kind? -/
def ListedRec.isBad : ListedRec → Bool
  | .good _ => false
  | .bad _ => true

/-- The well-formed records, in order. -/
def goodOf : List ListedRec → List RecInfo
  | [] => []
  | .good r :: rest => r :: goodOf rest
  | .bad _ :: rest => goodOf rest

/-- Every item matches its kind: good records extract as recorded, bad ones
raise `ValueError`. -/
def ListedOk (items : List ListedRec) : Prop :=
  ∀ it ∈ items,
    match it with
    | .good r => Extracts r
    | .bad ps => _get_encoded_id ps = .error .valueError

/-- The first pass over a mixed listing: one warning per broken record, and
the missing list is exactly the well-formed records whose id is not cached,
in listing order. -/
theorem scanMissing_mixed (fs : List String) (idx : IndexData) :
    ∀ items : List ListedRec, ListedOk items →
      scanMissing fs idx (items.map ListedRec.summary) =
        .ok (((goodOf items).filter
            (fun r => !is_cached fs idx r.id)).map RecInfo.ps,
          (items.filter ListedRec.isBad).length) := by
  intro items
  induction items with
  | nil => intro _; rfl
  | cons it rest ih =>
    intro hok
    have hit := hok it (by simp)
    have hrest : ListedOk rest := fun it' hit' => hok it' (by simp [hit'])
    cases it with
    | good r =>
      obtain ⟨hid, _, _⟩ := hit
      simp only [List.map_cons, ListedRec.summary, scanMissing, hid,
        ih hrest, Except.map, goodOf, List.filter_cons, ListedRec.isBad]
      by_cases hc : is_cached fs idx r.id <;> simp [hc]
    | bad ps =>
      simp only [List.map_cons, ListedRec.summary, scanMissing, hit,
        ih hrest, Except.map, goodOf, List.filter_cons, ListedRec.isBad]
      simp

/-- Whatever the scan returns as missing extracts successfully to an id that
is not cached in the loaded index. -/
theorem scanMissing_spec (fs : List String) (idx : IndexData) :
    ∀ (L m : List Json) (w : Nat), scanMissing fs idx L = .ok (m, w) →
      ∀ ps ∈ m, ∃ id, _get_encoded_id ps = .ok id ∧
        is_cached fs idx id = false := by
  intro L
  induction L with
  | nil =>
    intro m w h ps hps
    simp only [scanMissing] at h
    cases h
    exact absurd hps (by simp)
  | cons hd tl ih =>
    intro m w h ps hps
    simp only [scanMissing] at h
    cases hid : _get_encoded_id hd with
    | ok id0 =>
      rw [hid] at h
      cases htl : scanMissing fs idx tl with
      | error e => rw [htl] at h; exact absurd h (by simp [Except.map])
      | ok mw =>
        rw [htl] at h
        simp only [Except.map, Except.ok.injEq] at h
        obtain ⟨hm, hw⟩ := Prod.mk.injEq .. ▸ h
        by_cases hc : is_cached fs idx id0
        · rw [if_neg (by simp [hc])] at hm
          subst hm
          exact ih mw.1 mw.2 (by rw [htl]) ps hps
        · rw [if_pos (by simp [hc])] at hm
          subst hm
          rcases List.mem_cons.mp hps with hh | hh
          · subst hh
            exact ⟨id0, hid, by simp [hc]⟩
          · exact ih mw.1 mw.2 (by rw [htl]) ps hh
    | error e =>
      rw [hid] at h
      cases e with
      | valueError =>
        cases htl : scanMissing fs idx tl with
        | error e2 => rw [htl] at h; exact absurd h (by simp [Except.map])
        | ok mw =>
          rw [htl] at h
          simp only [Except.map, Except.ok.injEq] at h
          obtain ⟨hm, _⟩ := Prod.mk.injEq .. ▸ h
          subst hm
          exact ih mw.1 mw.2 (by rw [htl]) ps hps
      | keyError => exact absurd h (by simp)
      | attributeError => exact absurd h (by simp)
      | typeError => exact absurd h (by simp)

/-- General anatomy of a download-loop run, whatever the outcome: the fetch
log grows by ids extracted from the processed records only; an id no record
of the list extracts to keeps its index entry, both in memory and in
whatever index the loop may have saved to disk (the disk is otherwise
untouched); and any id whose index entry changed was fetched during the
run. -/
theorem downloadLoop_general (env : SyncEnv) (sp : Bool) :
    ∀ (miss : List Json) (i newly : Nat) (idx : IndexData) (s : SyncState),
      (∃ newIds,
        (downloadLoop env sp miss i idx newly s).2.2.2.fetchLog =
          s.fetchLog ++ newIds ∧
        ∀ id ∈ newIds, ∃ ps ∈ miss, _get_encoded_id ps = .ok id) ∧
      (∀ id, (∀ ps ∈ miss, ∀ idv, _get_encoded_id ps = .ok idv → idv ≠ id) →
        lookupA (downloadLoop env sp miss i idx newly s).2.1.payslips id =
          lookupA idx.payslips id) ∧
      ((downloadLoop env sp miss i idx newly s).2.2.2.disk = s.disk ∨
        ∃ d, (downloadLoop env sp miss i idx newly s).2.2.2.disk = some d ∧
          ∀ id, (∀ ps ∈ miss, ∀ idv, _get_encoded_id ps = .ok idv → idv ≠ id) →
            lookupA d.payslips id = lookupA idx.payslips id) ∧
      (∀ id,
        lookupA (downloadLoop env sp miss i idx newly s).2.1.payslips id ≠
          lookupA idx.payslips id →
        id ∈ (downloadLoop env sp miss i idx newly s).2.2.2.fetchLog) := by
  intro miss
  induction miss with
  | nil =>
    intro i newly idx s
    exact ⟨⟨[], by simp [downloadLoop], by simp⟩, fun id _ => rfl,
      Or.inl rfl, fun id hne => absurd rfl hne⟩
  | cons ps rest ih =>
    intro i newly idx s
    rw [downloadLoop]
    split
    · exact ⟨⟨[], by simp, by simp⟩, fun id _ => rfl,
        Or.inl rfl, fun id hne => absurd rfl hne⟩
    · split
      case h_1 e heqid =>
        exact ⟨⟨[], by simp, by simp⟩, fun id _ => rfl,
          Or.inl rfl, fun id hne => absurd rfl hne⟩
      case h_2 encoded_id heqid =>
        split
        case h_1 e heqpd =>
          exact ⟨⟨[], by simp, by simp⟩, fun id _ => rfl,
            Or.inl rfl, fun id hne => absurd rfl hne⟩
        case h_2 pay_date heqpd =>
          split
          case h_1 e heqpdfi =>
            exact ⟨⟨[], by simp, by simp⟩, fun id _ => rfl,
              Or.inl rfl, fun id hne => absurd rfl hne⟩
          case h_2 statement_id image_id heqpdfi =>
            split
            case h_1 _detail heqdet =>
              -- successful fetch: one stepRec, then the rest of the loop
              set r : RecInfo :=
                ⟨ps, encoded_id, pay_date, statement_id, image_id⟩ with hr
              obtain ⟨ihlog, ihframe, ihdisk, ihchanged⟩ :=
                ih (i + 1) (newly + 1) (stepRec env sp r idx s).1
                  (stepRec env sp r idx s).2
              obtain ⟨sdisk, slog, sjw, swarn, sclock⟩ :=
                stepState_proj env sp r s
              have hstep1 : (stepRec env sp r idx s).1 =
                  stepIdx env sp r idx s.clock := by rw [stepRec_eq]
              have hstep2 : (stepRec env sp r idx s).2 =
                  stepState env sp r s := by rw [stepRec_eq]
              obtain ⟨newIds, hlog, horig⟩ := ihlog
              refine ⟨⟨encoded_id :: newIds, ?_, ?_⟩, ?_, ?_, ?_⟩
              · rw [hlog, hstep2, slog]; simp
              · intro id hid
                rcases List.mem_cons.mp hid with h | h
                · exact ⟨ps, by simp, h ▸ heqid⟩
                · obtain ⟨ps', hps', hok⟩ := horig id h
                  exact ⟨ps', by simp [hps'], hok⟩
              · intro id h
                have hne : encoded_id ≠ id :=
                  h ps (by simp) encoded_id heqid
                rw [ihframe id (fun ps' hps' => h ps' (by simp [hps'])),
                  hstep1]
                exact lookupA_updateA_ne _ _ _ _ hne
              · rcases ihdisk with hd | ⟨d, hd, hdl⟩
                · exact Or.inl (by rw [hd, hstep2, sdisk])
                · refine Or.inr ⟨d, hd, fun id h => ?_⟩
                  have hne : encoded_id ≠ id :=
                    h ps (by simp) encoded_id heqid
                  rw [hdl id (fun ps' hps' => h ps' (by simp [hps'])),
                    hstep1]
                  exact lookupA_updateA_ne _ _ _ _ hne
              · intro id hne
                by_cases hmid : lookupA
                    (downloadLoop env sp rest (i + 1)
                      (stepRec env sp r idx s).1 (newly + 1)
                      (stepRec env sp r idx s).2).2.1.payslips id =
                    lookupA (stepRec env sp r idx s).1.payslips id
                · -- the change happened at this step: id is the fetched id
                  have : id = encoded_id := by
                    by_contra hcontra
                    apply hne
                    rw [hmid, hstep1]
                    exact lookupA_updateA_ne _ _ _ _
                      (fun hh => hcontra hh.symm)
                  subst this
                  rw [hlog, hstep2, slog]
                  simp
                · have := ihchanged id hmid
                  rw [hlog] at this ⊢
                  exact this
            case h_2 msg heqdet =>
              split
              · -- session expiry: saved and re-raised
                refine ⟨⟨[encoded_id], by simp, ?_⟩, fun id h => rfl,
                  Or.inr ⟨idx.saved s.clock, rfl, fun id h => rfl⟩,
                  fun id hne => absurd rfl hne⟩
                intro id hid
                simp only [List.mem_singleton] at hid
                exact ⟨ps, by simp, hid ▸ heqid⟩
              · -- non-fatal failure: continue with the next record
                obtain ⟨ihlog, ihframe, ihdisk, ihchanged⟩ :=
                  ih (i + 1) newly idx
                    { s with fetchLog := s.fetchLog ++ [encoded_id] }
                obtain ⟨newIds, hlog, horig⟩ := ihlog
                refine ⟨⟨encoded_id :: newIds, ?_, ?_⟩, ?_, ?_, ?_⟩
                · rw [hlog]; simp
                · intro id hid
                  rcases List.mem_cons.mp hid with h | h
                  · exact ⟨ps, by simp, h ▸ heqid⟩
                  · obtain ⟨ps', hps', hok⟩ := horig id h
                    exact ⟨ps', by simp [hps'], hok⟩
                · intro id h
                  exact ihframe id (fun ps' hps' => h ps' (by simp [hps']))
                · rcases ihdisk with hd | ⟨d, hd, hdl⟩
                  · exact Or.inl hd
                  · exact Or.inr ⟨d, hd, fun id h =>
                      hdl id (fun ps' hps' => h ps' (by simp [hps']))⟩
                · intro id hne
                  exact ihchanged id hne
            case h_3 e heqdet =>
              refine ⟨⟨[encoded_id], by simp, ?_⟩, fun id h => rfl,
                Or.inl rfl, fun id hne => absurd rfl hne⟩
              intro id hid
              simp only [List.mem_singleton] at hid
              exact ⟨ps, by simp, hid ▸ heqid⟩

/-- An id whose entry's artifact path exists on disk is cached (whatever the
path check: an empty — falsy — `json_path` is trusted without one). -/
theorem is_cached_of_entry (fs : List String) (idx : IndexData) (id : String)
    (e : Entry) (h : lookupA idx.payslips id = some e)
    (hfs : (CACHE_DIR ++ "/" ++ e.json_path) ∈ fs) :
    is_cached fs idx id = true := by
  unfold is_cached
  rw [h]
  by_cases hp : e.json_path ≠ "" <;> simp [hp, hfs]

/-- Lookup misses exactly the ids outside the key list. -/
theorem lookupA_eq_none_iff {α : Type} (l : List (String × α)) (id : String) :
    lookupA l id = none ↔ id ∉ l.map Prod.fst := by
  induction l with
  | nil => simp [lookupA]
  | cons hd tl ih =>
    by_cases h : hd.1 = id
    · simp [lookupA, h]
    · simp only [lookupA, if_neg h, ih, List.map_cons, List.mem_cons]
      constructor
      · intro hh hc
        rcases hc with hc | hc
        · exact h hc.symm
        · exact hh hc
      · intro hh hc
        exact hh (Or.inr hc)

/-- A record already satisfied when a run starts — its id has an index entry
whose JSON artifact exists on disk — is never fetched during the run beyond
what the starting log already contains, and its entry survives unchanged in
the in-memory index and in any index the run writes to disk. -/
theorem sync_satisfied (env : SyncEnv) (sp : Bool) (s : SyncState)
    (id : String) (e : Entry)
    (hld : lookupA (loadIndex s.disk).payslips id = some e)
    (hfs : (CACHE_DIR ++ "/" ++ e.json_path) ∈ s.fs) :
    (id ∈ (sync_all env sp s).2.2.fetchLog → id ∈ s.fetchLog) ∧
    lookupA (sync_all env sp s).2.1.payslips id = some e ∧
    (∀ d, (sync_all env sp s).2.2.disk = some d →
      lookupA d.payslips id = some e) := by
  have hcached : is_cached s.fs (loadIndex s.disk) id = true :=
    is_cached_of_entry _ _ _ _ hld hfs
  unfold sync_all
  split
  · -- empty listing: untouched state
    refine ⟨fun h => h, hld, fun d hd => ?_⟩
    have : s.disk = some d := hd
    rw [← hld, this]
    rfl
  · split
    case h_1 e2 heqscan =>
      exact ⟨fun h => h, hld, fun d hd => by
        have : s.disk = some d := hd
        rw [← hld, this]
        rfl⟩
    case h_2 missing warn heqscan =>
      have hmiss : ∀ ps ∈ missing, ∀ idv, _get_encoded_id ps = .ok idv →
          idv ≠ id := by
        intro ps hps idv hok heq
        obtain ⟨idv', hok', hnc⟩ := scanMissing_spec s.fs (loadIndex s.disk)
          _ _ _ (by rw [heqscan]) ps hps
        rw [hok] at hok'
        cases hok'
        rw [heq] at hnc
        rw [hcached] at hnc
        exact absurd hnc (by simp)
      split
      · -- nothing missing: save of the loaded index
        refine ⟨fun h => h, hld, fun d hd => ?_⟩
        have : some ((loadIndex s.disk).saved s.clock) = some d := hd
        cases this
        exact hld
      · -- download loop over the missing records
        obtain ⟨⟨newIds, hlog, horig⟩, hframe, hdisk, _⟩ :=
          downloadLoop_general env sp missing 0 0 (loadIndex s.disk)
            { s with warnings := s.warnings + warn }
        have hnotin : id ∉ newIds := by
          intro hmem
          obtain ⟨ps, hps, hok⟩ := horig id hmem
          exact hmiss ps hps id hok rfl
        have hfr := hframe id hmiss
        split
        case h_1 exn idx2 rest2 s2 heqloop =>
          rw [heqloop] at hlog hfr hdisk
          have hlog2 : s2.fetchLog = s.fetchLog ++ newIds := hlog
          have hfr2 : lookupA idx2.payslips id =
              lookupA (loadIndex s.disk).payslips id := hfr
          have hdisk2 : s2.disk = s.disk ∨
              ∃ d, s2.disk = some d ∧ ∀ id0,
                (∀ ps ∈ missing, ∀ idv, _get_encoded_id ps = .ok idv →
                  idv ≠ id0) →
                lookupA d.payslips id0 =
                  lookupA (loadIndex s.disk).payslips id0 := hdisk
          refine ⟨fun h => ?_, ?_, fun d hd => ?_⟩
          · have h2 : id ∈ s2.fetchLog := h
            rw [hlog2] at h2
            rcases List.mem_append.mp h2 with hh | hh
            · exact hh
            · exact absurd hh hnotin
          · show lookupA idx2.payslips id = some e
            rw [hfr2, hld]
          · have hd2 : s2.disk = some d := hd
            rcases hdisk2 with hdd | ⟨d2, hdd, hdl⟩
            · rw [hdd] at hd2
              rw [← hld, hd2]
              rfl
            · rw [hdd] at hd2
              cases hd2
              rw [hdl id hmiss, hld]
        case h_2 idx2 newly2 s2 heqloop =>
          rw [heqloop] at hlog hfr hdisk
          have hlog2 : s2.fetchLog = s.fetchLog ++ newIds := hlog
          have hfr2 : lookupA idx2.payslips id =
              lookupA (loadIndex s.disk).payslips id := hfr
          refine ⟨fun h => ?_, ?_, fun d hd => ?_⟩
          · have h2 : id ∈ s2.fetchLog := h
            rw [hlog2] at h2
            rcases List.mem_append.mp h2 with hh | hh
            · exact hh
            · exact absurd hh hnotin
          · show lookupA (idx2.saved s2.clock).payslips id = some e
            show lookupA idx2.payslips id = some e
            rw [hfr2, hld]
          · have hd2 : some (idx2.saved s2.clock) = some d := hd
            cases hd2
            show lookupA idx2.payslips id = some e
            rw [hfr2, hld]

/-- Any id whose in-memory index entry differs after a run from the loaded
value was fetched during that run: the run only adds or overwrites entries
for records it actually downloads. -/
theorem sync_changed (env : SyncEnv) (sp : Bool) (s : SyncState)
    (id : String)
    (hne : lookupA (sync_all env sp s).2.1.payslips id ≠
      lookupA (loadIndex s.disk).payslips id) :
    id ∈ (sync_all env sp s).2.2.fetchLog := by
  revert hne
  unfold sync_all
  split
  · intro hne; exact absurd rfl hne
  · split
    case h_1 e2 heqscan => intro hne; exact absurd rfl hne
    case h_2 missing warn heqscan =>
      obtain ⟨_, _, _, hchanged⟩ :=
        downloadLoop_general env sp missing 0 0 (loadIndex s.disk)
          { s with warnings := s.warnings + warn }
      split
      · intro hne; exact absurd rfl hne
      · split
        case h_1 exn idx2 rest2 s2 heqloop =>
          intro hne
          rw [heqloop] at hchanged
          have h2 : lookupA idx2.payslips id ≠
              lookupA (loadIndex s.disk).payslips id := hne
          exact hchanged id h2
        case h_2 idx2 newly2 s2 heqloop =>
          intro hne
          rw [heqloop] at hchanged
          have h2 : lookupA idx2.payslips id ≠
              lookupA (loadIndex s.disk).payslips id := hne
          exact hchanged id h2

theorem goodOf_map_good (recs : List RecInfo) :
    goodOf (recs.map ListedRec.good) = recs := by
  induction recs with
  | nil => rfl
  | cons r rest ih => simp [goodOf, ih]

theorem summary_map_good (recs : List RecInfo) :
    (recs.map ListedRec.good).map ListedRec.summary = recs.map RecInfo.ps := by
  induction recs with
  | nil => rfl
  | cons r rest ih => simp [ListedRec.summary, ih]

theorem filter_isBad_map_good (recs : List RecInfo) :
    (recs.map ListedRec.good).filter ListedRec.isBad = [] := by
  induction recs with
  | nil => rfl
  | cons r rest ih => simp [ListedRec.isBad, ih]

/-- `scanMissing` over a listing of well-formed records only. -/
theorem scanMissing_recs (fs : List String) (idx : IndexData)
    (recs : List RecInfo) (h : ∀ r ∈ recs, Extracts r) :
    scanMissing fs idx (recs.map RecInfo.ps) =
      .ok ((recs.filter (fun r => !is_cached fs idx r.id)).map RecInfo.ps,
        0) := by
  have hok : ListedOk (recs.map ListedRec.good) := by
    intro it hit
    obtain ⟨r, hr, hrit⟩ := List.mem_map.mp hit
    rw [← hrit]
    exact h r hr
  have := scanMissing_mixed fs idx (recs.map ListedRec.good) hok
  rw [summary_map_good, goodOf_map_good, filter_isBad_map_good] at this
  simpa using this

/-- A full success run from an empty index: every listed record is fetched
and persisted exactly once — the result is `(N, 0, N)`, the index ends with
exactly one entry per record id in listing order, the fetch log gains each
id once, one JSON artifact is written per record (and exists in the final
filesystem), and (for a nonempty listing) the final index is saved to
disk. -/
theorem sync_from_empty (env : SyncEnv) (sp : Bool) (recs : List RecInfo)
    (s : SyncState)
    (hlist : (list_all_payslips env.pages env.listFuel).1 =
      recs.map RecInfo.ps)
    (hgood : GoodRecs env recs)
    (hnodup : (recs.map RecInfo.id).Nodup)
    (hnoint : env.interruptAt = none)
    (hdisk : s.disk = none) :
    (sync_all env sp s).1 = .ok (recs.length, 0, recs.length) ∧
    (sync_all env sp s).2.1.payslips.map Prod.fst = recs.map RecInfo.id ∧
    (sync_all env sp s).2.2.fetchLog = s.fetchLog ++ recs.map RecInfo.id ∧
    (sync_all env sp s).2.2.jsonWrites = s.jsonWrites ++
      recs.map (fun r => CACHE_DIR ++ "/" ++ makeRelPath r.pd "json") ∧
    (recs ≠ [] →
      (sync_all env sp s).2.2.disk = some (sync_all env sp s).2.1) ∧
    (recs ≠ [] → (sync_all env sp s).2.1.total_count =
      (sync_all env sp s).2.1.payslips.length) ∧
    (∀ r ∈ recs, ∃ c, lookupA (sync_all env sp s).2.1.payslips r.id =
      some ⟨r.pd, makeRelPath r.pd "json", pdfRelOf env sp r, c⟩) ∧
    (∀ r ∈ recs, (CACHE_DIR ++ "/" ++ makeRelPath r.pd "json") ∈
      (sync_all env sp s).2.2.fs) := by
  have hemptyIdx : loadIndex s.disk = ⟨[], 0, none⟩ := by rw [hdisk]; rfl
  have hext : ∀ r ∈ recs, Extracts r := fun r hr => (hgood r hr).1
  have hscan : scanMissing s.fs (loadIndex s.disk) (recs.map RecInfo.ps) =
      .ok (recs.map RecInfo.ps, 0) := by
    rw [scanMissing_recs _ _ recs hext]
    have hflt : recs.filter
        (fun r => !is_cached s.fs (loadIndex s.disk) r.id) = recs :=
      List.filter_eq_self.mpr (fun r _ => by rw [hemptyIdx]; rfl)
    rw [hflt]
  cases recs with
  | nil =>
    simp only [List.map_nil] at hlist
    have h1 : sync_all env sp s = (.ok (0, 0, 0), loadIndex s.disk, s) := by
      unfold sync_all
      rw [hlist]
      rfl
    rw [h1]
    refine ⟨rfl, by rw [hemptyIdx]; rfl, by simp, by simp,
      fun h => absurd rfl h, fun h => absurd rfl h,
      fun r hr => absurd hr (List.not_mem_nil r),
      fun r hr => absurd hr (List.not_mem_nil r)⟩
  | cons r0 rest =>
    have hlsuc := downloadLoop_success env sp hnoint (r0 :: rest) hgood 0 0
      (loadIndex s.disk) { s with warnings := s.warnings + 0 }
    obtain ⟨rdisk, rlog, rjw, rwarn, rmono, rall⟩ :=
      runRecs_state env sp (r0 :: rest) (loadIndex s.disk)
        { s with warnings := s.warnings + 0 }
    have hkeys := runRecs_idx_keys env sp (r0 :: rest) (loadIndex s.disk)
      { s with warnings := s.warnings + 0 }
      (fun r _ => by rw [hemptyIdx]; rfl) hnodup
    have hlook := runRecs_idx_lookup env sp (r0 :: rest) (loadIndex s.disk)
      { s with warnings := s.warnings + 0 } hnodup
    unfold sync_all
    rw [hlist]
    rw [if_neg (by simp), hscan]
    simp only [List.isEmpty_eq_true]
    rw [if_neg (by simp)]
    rw [hlsuc]
    refine ⟨by simp, ?_, ?_, ?_, fun _ => rfl, fun _ => rfl, ?_, ?_⟩
    · show (runRecs env sp (r0 :: rest)
        (loadIndex s.disk, { s with warnings := s.warnings + 0 })).1.payslips.map
          Prod.fst = _
      rw [hkeys, hemptyIdx]
      rfl
    · show (runRecs env sp (r0 :: rest)
        (loadIndex s.disk, { s with warnings := s.warnings + 0 })).2.fetchLog = _
      rw [rlog]
    · show (runRecs env sp (r0 :: rest)
        (loadIndex s.disk, { s with warnings := s.warnings + 0 })).2.jsonWrites = _
      rw [rjw]
    · intro r hr
      obtain ⟨c, hc⟩ := hlook r hr
      exact ⟨c, hc⟩
    · intro r hr
      exact rall r hr

/-- A run over a nonempty listing all of whose records are already satisfied:
nothing is fetched or written, the result is `(N, N, 0)`, and the save
leaves the index entries untouched — only `last_sync` (and the recomputed
`total_count`) change. -/
theorem sync_all_satisfied (env : SyncEnv) (sp : Bool) (recs : List RecInfo)
    (s : SyncState)
    (hlist : (list_all_payslips env.pages env.listFuel).1 =
      recs.map RecInfo.ps)
    (hext : ∀ r ∈ recs, Extracts r)
    (hsat : ∀ r ∈ recs, is_cached s.fs (loadIndex s.disk) r.id = true)
    (hne : recs ≠ []) :
    (sync_all env sp s).1 = .ok (recs.length, recs.length, 0) ∧
    (sync_all env sp s).2.1.payslips = (loadIndex s.disk).payslips ∧
    (sync_all env sp s).2.1.total_count =
      (loadIndex s.disk).payslips.length ∧
    (sync_all env sp s).2.1.last_sync = some s.clock ∧
    (sync_all env sp s).2.2.disk = some (sync_all env sp s).2.1 ∧
    (sync_all env sp s).2.2.fetchLog = s.fetchLog ∧
    (sync_all env sp s).2.2.jsonWrites = s.jsonWrites := by
  have hscan : scanMissing s.fs (loadIndex s.disk) (recs.map RecInfo.ps) =
      .ok ([], 0) := by
    rw [scanMissing_recs _ _ recs hext]
    have hflt : recs.filter
        (fun r => !is_cached s.fs (loadIndex s.disk) r.id) = [] :=
      List.filter_eq_nil_iff.mpr (fun r hr => by simp [hsat r hr])
    rw [hflt]
    rfl
  have hlistne : ((recs.map RecInfo.ps).isEmpty) = false := by
    cases recs with
    | nil => exact absurd rfl hne
    | cons _ _ => rfl
  unfold sync_all
  rw [hlist, hlistne]
  rw [if_neg (by simp), hscan]
  refine ⟨by simp, rfl, rfl, rfl, rfl, rfl, rfl⟩

/-- C10: a `sync_all` run never deletes or modifies the index entry of a
record already satisfied at its start (id present, JSON artifact on disk):
the entry — all of `pay_date`, `json_path`, `pdf_path`, `cached_at` — is
unchanged in the in-memory index and in any index contents the run saves to
disk; and the run only adds or overwrites entries for ids it actually
fetched during the run. -/
theorem c10_satisfied_frame (env : SyncEnv) (sp : Bool) (s : SyncState)
    (id : String) (e : Entry)
    (hld : lookupA (loadIndex s.disk).payslips id = some e)
    (hfs : (CACHE_DIR ++ "/" ++ e.json_path) ∈ s.fs) :
    lookupA (sync_all env sp s).2.1.payslips id = some e ∧
    (∀ d, (sync_all env sp s).2.2.disk = some d →
      lookupA d.payslips id = some e) ∧
    (∀ id2, lookupA (sync_all env sp s).2.1.payslips id2 ≠
        lookupA (loadIndex s.disk).payslips id2 →
      id2 ∈ (sync_all env sp s).2.2.fetchLog) := by
  obtain ⟨_, h2, h3⟩ := sync_satisfied env sp s id e hld hfs
  exact ⟨h2, h3, fun id2 hne => sync_changed env sp s id2 hne⟩

/-- A ready-made satisfied starting state for witnesses: one cached record
`IDA` whose JSON artifact exists. -/
def entryA : Entry := ⟨"2024-01-15", "2024/01/2024-01-15.json", none, 0⟩

/-- State holding `entryA` on disk and its artifact in the filesystem. -/
def sCached : SyncState :=
  ⟨[".cache/payslips/2024/01/2024-01-15.json"],
    some ⟨[("IDA", entryA)], 1, some 0⟩, 5, [], [], [], 0⟩

/-- An environment with an empty remote collection. -/
def envEmptyListing : SyncEnv :=
  ⟨fun _ => .asDict [] (some 0), 3, fun _ => .ok (.obj []), fun _ => false,
    none⟩

/-- Witness for `c10_satisfied_frame`: with one satisfied record cached and
an empty remote listing, the entry survives the run unchanged. -/
theorem c10_satisfied_frame_witness :
    lookupA (sync_all envEmptyListing true sCached).2.1.payslips "IDA" =
      some entryA :=
  (c10_satisfied_frame envEmptyListing true sCached "IDA" entryA
    (by decide) (by decide)).1

/-- C1: against a remote collection of `N` records served in slices of any
page size `p ≥ 1` and returned once in full, a single `sync_all` from an
empty index fetches and persists each record exactly once: the result is
`(N, 0, N)`, the index has exactly one entry per distinct remote id in
listing order, the fetch log is exactly the ids (each appearing once), and
exactly one JSON artifact is written per record.  And on any later run, a
record already satisfied — its id indexed with an existing JSON artifact —
is never fetched or persisted again. -/
theorem c1_at_most_once (env : SyncEnv) (sp : Bool) (recs : List RecInfo)
    (p : Nat) (s : SyncState) (hp : 1 ≤ p)
    (hpages : env.pages = slicePages (recs.map RecInfo.ps) p)
    (hfuel : recs.length < env.listFuel)
    (hnoint : env.interruptAt = none)
    (hgood : GoodRecs env recs)
    (hnodup : (recs.map RecInfo.id).Nodup)
    (hdisk : s.disk = none) (hlog : s.fetchLog = [])
    (hjw : s.jsonWrites = []) :
    (sync_all env sp s).1 = .ok (recs.length, 0, recs.length) ∧
    (sync_all env sp s).2.1.payslips.map Prod.fst = recs.map RecInfo.id ∧
    (sync_all env sp s).2.2.fetchLog = recs.map RecInfo.id ∧
    (∀ id ∈ recs.map RecInfo.id,
      (sync_all env sp s).2.2.fetchLog.count id = 1) ∧
    (sync_all env sp s).2.2.jsonWrites.length = recs.length ∧
    (∀ (env2 : SyncEnv) (sp2 : Bool) (s2 : SyncState) (id : String)
        (e : Entry),
      lookupA (loadIndex s2.disk).payslips id = some e →
      (CACHE_DIR ++ "/" ++ e.json_path) ∈ s2.fs → s2.fetchLog = [] →
      id ∉ (sync_all env2 sp2 s2).2.2.fetchLog ∧
      lookupA (sync_all env2 sp2 s2).2.1.payslips id = some e) := by
  have hlist : (list_all_payslips env.pages env.listFuel).1 =
      recs.map RecInfo.ps := by
    rw [hpages]
    exact listAllGo_chunked (recs.map RecInfo.ps) _
      (slicePages_chunked _ p hp) env.listFuel 0 [] 0 rfl (by omega)
      (by simp; omega)
  obtain ⟨h1, h2, h3, h4, _, _, _, _⟩ :=
    sync_from_empty env sp recs s hlist hgood hnodup hnoint hdisk
  refine ⟨h1, h2, ?_, ?_, ?_, ?_⟩
  · rw [h3, hlog]; rfl
  · intro id hid
    rw [h3, hlog, List.nil_append]
    exact List.count_eq_one_of_mem hnodup hid
  · rw [h4, hjw]
    simp
  · intro env2 sp2 s2 id e hld hfs hlog2
    obtain ⟨hf, hm, _⟩ := sync_satisfied env2 sp2 s2 id e hld hfs
    refine ⟨fun hmem => ?_, hm⟩
    have := hf hmem
    rw [hlog2] at this
    exact absurd this (List.not_mem_nil id)

/-- Two concrete well-formed payslip summaries for witnesses. -/
def psA : Json := .obj [("payDetailUri",
  .obj [("href", .str "/v1_0/O/A/payStatement/IDA")]),
  ("payDate", .str "2024-01-15")]

def psB : Json := .obj [("payDetailUri",
  .obj [("href", .str "/v1_0/O/A/payStatement/IDB")]),
  ("payDate", .str "2024-02-15")]

def recA : RecInfo := ⟨psA, "IDA", "2024-01-15", none, none⟩

def recB : RecInfo := ⟨psB, "IDB", "2024-02-15", none, none⟩

/-- A fresh starting state: nothing on disk, empty logs. -/
def stateEmpty : SyncState := ⟨[], none, 0, [], [], [], 0⟩

/-- Environment serving `[psA, psB]` in slices of 3 with an always-working
detail endpoint. -/
def envC1 : SyncEnv :=
  ⟨slicePages [psA, psB] 3, 5, fun _ => .ok (.obj []), fun _ => false, none⟩

theorem goodRecsC1 : GoodRecs envC1 [recA, recB] := by
  intro r hr
  rcases List.mem_cons.mp hr with h | h
  · subst h
    exact ⟨⟨by decide, by decide, by decide⟩, ⟨.obj [], rfl⟩⟩
  · rcases List.mem_cons.mp h with h | h
    · subst h
      exact ⟨⟨by decide, by decide, by decide⟩, ⟨.obj [], rfl⟩⟩
    · exact absurd h (List.not_mem_nil r)

/-- Witness for `c1_at_most_once`: syncing the two-record collection from
scratch downloads both, once each. -/
theorem c1_at_most_once_witness :
    (sync_all envC1 true stateEmpty).1 = .ok (2, 0, 2) ∧
    (sync_all envC1 true stateEmpty).2.2.fetchLog = ["IDA", "IDB"] := by
  have h := c1_at_most_once envC1 true [recA, recB] 3 stateEmpty
    (by omega) rfl (by decide) rfl goodRecsC1 (by decide) rfl rfl rfl
  exact ⟨h.1, h.2.2.1⟩

/-- C6: after a full success run from an empty index, running `sync_all`
again against the unchanged remote collection downloads nothing
(`newly_downloaded = 0`) and leaves the index content unchanged apart from
the refreshed `last_sync` timestamp: the `payslips` entries and the
`total_count` of the second run's saved index equal the first run's. -/
theorem c6_idempotent (env : SyncEnv) (sp : Bool) (recs : List RecInfo)
    (p : Nat) (s : SyncState) (hp : 1 ≤ p)
    (hpages : env.pages = slicePages (recs.map RecInfo.ps) p)
    (hfuel : recs.length < env.listFuel)
    (hnoint : env.interruptAt = none)
    (hgood : GoodRecs env recs)
    (hnodup : (recs.map RecInfo.id).Nodup)
    (hdisk : s.disk = none) (hne : recs ≠ []) :
    (sync_all env sp (sync_all env sp s).2.2).1 =
      .ok (recs.length, recs.length, 0) ∧
    (sync_all env sp (sync_all env sp s).2.2).2.1.payslips =
      (sync_all env sp s).2.1.payslips ∧
    (sync_all env sp (sync_all env sp s).2.2).2.1.total_count =
      (sync_all env sp s).2.1.total_count ∧
    (sync_all env sp (sync_all env sp s).2.2).2.1.last_sync =
      some (sync_all env sp s).2.2.clock := by
  have hlist : (list_all_payslips env.pages env.listFuel).1 =
      recs.map RecInfo.ps := by
    rw [hpages]
    exact listAllGo_chunked (recs.map RecInfo.ps) _
      (slicePages_chunked _ p hp) env.listFuel 0 [] 0 rfl (by omega)
      (by simp; omega)
  obtain ⟨_, _, _, _, hdsk, htc, hlook, hfsall⟩ :=
    sync_from_empty env sp recs s hlist hgood hnodup hnoint hdisk
  have hload : loadIndex (sync_all env sp s).2.2.disk =
      (sync_all env sp s).2.1 := by
    rw [hdsk hne]
    rfl
  have hsat : ∀ r ∈ recs,
      is_cached (sync_all env sp s).2.2.fs
        (loadIndex (sync_all env sp s).2.2.disk) r.id = true := by
    intro r hr
    obtain ⟨c, hc⟩ := hlook r hr
    rw [hload]
    exact is_cached_of_entry _ _ _ _ hc (hfsall r hr)
  obtain ⟨g1, g2, g3, g4, _, _, _⟩ :=
    sync_all_satisfied env sp recs (sync_all env sp s).2.2 hlist
      (fun r hr => (hgood r hr).1) hsat hne
  refine ⟨g1, ?_, ?_, g4⟩
  · rw [g2, hload]
  · rw [g3, hload, htc hne]

/-- Witness for `c6_idempotent`: the second run over the two-record
collection downloads nothing. -/
theorem c6_idempotent_witness :
    (sync_all envC1 true (sync_all envC1 true stateEmpty).2.2).1 =
      .ok (2, 2, 0) :=
  (c6_idempotent envC1 true [recA, recB] 3 stateEmpty (by omega) rfl
    (by decide) rfl goodRecsC1 (by decide) rfl (by simp)).1

/-- C5: an index entry whose referenced JSON artifact is missing from disk
is not trusted: `is_cached` (with its default `verify_exists`) returns
false for it, and a run whose listing contains a record with that id treats
it as missing and fetches it again. -/
theorem c5_dangling_refetch (env : SyncEnv) (sp : Bool) (s : SyncState)
    (id : String) (e : Entry) (recs : List RecInfo) (r : RecInfo)
    (hld : lookupA (loadIndex s.disk).payslips id = some e)
    (hjp : e.json_path ≠ "")
    (hgone : (CACHE_DIR ++ "/" ++ e.json_path) ∉ s.fs)
    (hlist : (list_all_payslips env.pages env.listFuel).1 =
      recs.map RecInfo.ps)
    (hgood : GoodRecs env recs)
    (hnoint : env.interruptAt = none)
    (hr : r ∈ recs) (hrid : r.id = id) :
    is_cached s.fs (loadIndex s.disk) id = false ∧
    id ∈ (sync_all env sp s).2.2.fetchLog := by
  have hnc : is_cached s.fs (loadIndex s.disk) id = false := by
    unfold is_cached
    rw [hld]
    simp [hjp, hgone]
  refine ⟨hnc, ?_⟩
  have hext : ∀ r' ∈ recs, Extracts r' := fun r' hr' => (hgood r' hr').1
  have hscan := scanMissing_recs s.fs (loadIndex s.disk) recs hext
  have hrmiss : r ∈ recs.filter
      (fun r' => !is_cached s.fs (loadIndex s.disk) r'.id) := by
    rw [List.mem_filter]
    exact ⟨hr, by rw [hrid, hnc]; rfl⟩
  have hmissgood : GoodRecs env (recs.filter
      (fun r' => !is_cached s.fs (loadIndex s.disk) r'.id)) :=
    fun r' hr' => hgood r' (List.mem_filter.mp hr').1
  have hlsuc := downloadLoop_success env sp hnoint _ hmissgood 0 0
    (loadIndex s.disk) { s with warnings := s.warnings + 0 }
  obtain ⟨_, rlog, _⟩ := runRecs_state env sp
    (recs.filter (fun r' => !is_cached s.fs (loadIndex s.disk) r'.id))
    (loadIndex s.disk) { s with warnings := s.warnings + 0 }
  have hb1 : ¬((recs.map RecInfo.ps).isEmpty = true) := by
    cases recs with
    | nil => exact absurd hr (List.not_mem_nil r)
    | cons _ _ => simp
  have hb2 : ¬(((recs.filter
      (fun r' => !is_cached s.fs (loadIndex s.disk) r'.id)).map
        RecInfo.ps).isEmpty = true) := by
    intro hcontra
    rw [List.isEmpty_eq_true, List.map_eq_nil_iff] at hcontra
    rw [hcontra] at hrmiss
    exact absurd hrmiss (List.not_mem_nil r)
  have hchar : sync_all env sp s =
      (.ok ((recs.map RecInfo.ps).length,
          (recs.map RecInfo.ps).length -
            ((recs.filter
              (fun r' => !is_cached s.fs (loadIndex s.disk) r'.id)).map
                RecInfo.ps).length,
          0 + (recs.filter
            (fun r' => !is_cached s.fs (loadIndex s.disk) r'.id)).length),
        (runRecs env sp
          (recs.filter (fun r' => !is_cached s.fs (loadIndex s.disk) r'.id))
          (loadIndex s.disk, { s with warnings := s.warnings + 0 })).1.saved
          (runRecs env sp
            (recs.filter
              (fun r' => !is_cached s.fs (loadIndex s.disk) r'.id))
            (loadIndex s.disk,
              { s with warnings := s.warnings + 0 })).2.clock,
        { (runRecs env sp
            (recs.filter
              (fun r' => !is_cached s.fs (loadIndex s.disk) r'.id))
            (loadIndex s.disk, { s with warnings := s.warnings + 0 })).2 with
          disk := some ((runRecs env sp
            (recs.filter
              (fun r' => !is_cached s.fs (loadIndex s.disk) r'.id))
            (loadIndex s.disk,
              { s with warnings := s.warnings + 0 })).1.saved
            (runRecs env sp
              (recs.filter
                (fun r' => !is_cached s.fs (loadIndex s.disk) r'.id))
              (loadIndex s.disk,
                { s with warnings := s.warnings + 0 })).2.clock),
          clock := (runRecs env sp
            (recs.filter
              (fun r' => !is_cached s.fs (loadIndex s.disk) r'.id))
            (loadIndex s.disk,
              { s with warnings := s.warnings + 0 })).2.clock + 1 }) := by
    unfold sync_all
    rw [hlist]
    rw [if_neg hb1]
    simp only [hscan]
    rw [if_neg hb2]
    rw [hlsuc]
  rw [hchar]
  have hfinal : ({ (runRecs env sp
      (recs.filter (fun r' => !is_cached s.fs (loadIndex s.disk) r'.id))
      (loadIndex s.disk, { s with warnings := s.warnings + 0 })).2 with
        disk := some ((runRecs env sp
          (recs.filter
            (fun r' => !is_cached s.fs (loadIndex s.disk) r'.id))
          (loadIndex s.disk,
            { s with warnings := s.warnings + 0 })).1.saved
          (runRecs env sp
            (recs.filter
              (fun r' => !is_cached s.fs (loadIndex s.disk) r'.id))
            (loadIndex s.disk,
              { s with warnings := s.warnings + 0 })).2.clock),
        clock := (runRecs env sp
          (recs.filter
            (fun r' => !is_cached s.fs (loadIndex s.disk) r'.id))
          (loadIndex s.disk,
            { s with warnings := s.warnings + 0 })).2.clock + 1
      } : SyncState).fetchLog =
      s.fetchLog ++ (recs.filter
        (fun r' => !is_cached s.fs (loadIndex s.disk) r'.id)).map
          RecInfo.id := rlog
  show id ∈ _
  rw [show ((.ok ((recs.map RecInfo.ps).length, _, _), _, _) :
    Except SyncExn (Nat × Nat × Nat) × IndexData × SyncState).2.2.fetchLog =
    s.fetchLog ++ (recs.filter
      (fun r' => !is_cached s.fs (loadIndex s.disk) r'.id)).map
        RecInfo.id from hfinal]
  refine List.mem_append_right _ ?_
  rw [← hrid]
  exact List.mem_map_of_mem RecInfo.id hrmiss

/-- A state whose index lists `IDA` with a JSON path, but whose filesystem
is empty, so the referenced artifact is dangling. -/
def sDangling : SyncState :=
  ⟨[], some ⟨[("IDA", entryA)], 1, some 0⟩, 5, [], [], [], 0⟩

/-- Witness for `c5_dangling_refetch`: the dangling `IDA` entry is treated
as uncached and refetched. -/
theorem c5_dangling_refetch_witness :
    is_cached sDangling.fs (loadIndex sDangling.disk) "IDA" = false ∧
    "IDA" ∈ (sync_all envC1 true sDangling).2.2.fetchLog :=
  c5_dangling_refetch envC1 true sDangling "IDA" entryA [recA, recB] recA
    rfl (by decide) (by simp [sDangling]) rfl goodRecsC1 rfl
    (List.mem_cons_self recA [recB]) rfl

/-- The download loop on good records followed by a record whose detail
fetch raises a session-expiry `RuntimeError`: the prefix is processed in
full, then the loop saves the index to disk and re-raises without touching
the remaining records. -/
theorem downloadLoop_expiry (env : SyncEnv) (sp : Bool)
    (hnoint : env.interruptAt = none) (bad : RecInfo) (m : String)
    (post : List Json) (hbadext : Extracts bad)
    (hbaddet : fetch_payslip_detail env bad.id = .error (.runtime m))
    (hm : isSessionExpiryMsg m = true) :
    ∀ pre : List RecInfo, GoodRecs env pre →
    ∀ (i newly : Nat) (idx : IndexData) (s : SyncState),
      downloadLoop env sp (pre.map RecInfo.ps ++ bad.ps :: post) i idx newly
          s =
        (some (.runtime m),
          (runRecs env sp pre (idx, s)).1.saved
            (runRecs env sp pre (idx, s)).2.clock,
          newly + pre.length,
          { (runRecs env sp pre (idx, s)).2 with
            fetchLog :=
              (runRecs env sp pre (idx, s)).2.fetchLog ++ [bad.id],
            disk := some ((runRecs env sp pre (idx, s)).1.saved
              (runRecs env sp pre (idx, s)).2.clock),
            clock := (runRecs env sp pre (idx, s)).2.clock + 1 }) := by
  intro pre
  induction pre with
  | nil =>
    intro _ i newly idx s
    obtain ⟨hid, hpd, hpdfi⟩ := hbadext
    simp only [List.map_nil, List.nil_append, downloadLoop, hnoint,
      if_neg (by simp : ¬((none : Option Nat) = some i)), hid, hpd, hpdfi,
      hbaddet, hm, eq_self_iff_true, if_true]
    rfl
  | cons r rest ih =>
    intro hgood i newly idx s
    obtain ⟨⟨hid, hpd, hpdfi⟩, j, hdet⟩ := hgood r (by simp)
    have hrest : GoodRecs env rest := fun r' hr' => hgood r' (by simp [hr'])
    simp only [List.map_cons, List.cons_append, downloadLoop, hnoint,
      if_neg (by simp : ¬((none : Option Nat) = some i)), hid, hpd, hpdfi,
      fetch_payslip_detail, hdet, List.append_eq]
    rw [ih hrest]
    have hrr : runRecs env sp (r :: rest) (idx, s) =
        runRecs env sp rest (stepRec env sp r idx s) := rfl
    rw [hrr]
    have harith : newly + 1 + rest.length = newly + (rest.length + 1) := by
      omega
    rw [show (r :: rest).length = rest.length + 1 from rfl, ← harith]

/-- Characterization of a `sync_all` run whose listing is nonempty, whose
records all extract, and whose uncached records all download successfully:
the loop is the `runRecs` fold over exactly the uncached records and the
resulting index is saved. -/
theorem sync_success_char (env : SyncEnv) (sp : Bool) (s : SyncState)
    (recs : List RecInfo)
    (hlist : (list_all_payslips env.pages env.listFuel).1 =
      recs.map RecInfo.ps)
    (hext : ∀ r ∈ recs, Extracts r)
    (hmissgood : GoodRecs env (recs.filter
      (fun r => !is_cached s.fs (loadIndex s.disk) r.id)))
    (hnoint : env.interruptAt = none)
    (hb1 : ¬((recs.map RecInfo.ps).isEmpty = true))
    (hb2 : ¬(((recs.filter
      (fun r => !is_cached s.fs (loadIndex s.disk) r.id)).map
        RecInfo.ps).isEmpty = true)) :
    sync_all env sp s =
      (.ok ((recs.map RecInfo.ps).length,
          (recs.map RecInfo.ps).length -
            ((recs.filter
              (fun r => !is_cached s.fs (loadIndex s.disk) r.id)).map
                RecInfo.ps).length,
          0 + (recs.filter
            (fun r => !is_cached s.fs (loadIndex s.disk) r.id)).length),
        (runRecs env sp
          (recs.filter (fun r => !is_cached s.fs (loadIndex s.disk) r.id))
          (loadIndex s.disk, { s with warnings := s.warnings + 0 })).1.saved
          (runRecs env sp
            (recs.filter
              (fun r => !is_cached s.fs (loadIndex s.disk) r.id))
            (loadIndex s.disk,
              { s with warnings := s.warnings + 0 })).2.clock,
        { (runRecs env sp
            (recs.filter
              (fun r => !is_cached s.fs (loadIndex s.disk) r.id))
            (loadIndex s.disk, { s with warnings := s.warnings + 0 })).2 with
          disk := some ((runRecs env sp
            (recs.filter
              (fun r => !is_cached s.fs (loadIndex s.disk) r.id))
            (loadIndex s.disk,
              { s with warnings := s.warnings + 0 })).1.saved
            (runRecs env sp
              (recs.filter
                (fun r => !is_cached s.fs (loadIndex s.disk) r.id))
              (loadIndex s.disk,
                { s with warnings := s.warnings + 0 })).2.clock),
          clock := (runRecs env sp
            (recs.filter
              (fun r => !is_cached s.fs (loadIndex s.disk) r.id))
            (loadIndex s.disk,
              { s with warnings := s.warnings + 0 })).2.clock + 1 }) := by
  have hscan := scanMissing_recs s.fs (loadIndex s.disk) recs hext
  have hlsuc := downloadLoop_success env sp hnoint _ hmissgood 0 0
    (loadIndex s.disk) { s with warnings := s.warnings + 0 }
  unfold sync_all
  rw [hlist]
  rw [if_neg hb1]
  simp only [hscan]
  rw [if_neg hb2]
  rw [hlsuc]

/-- C2: when the detail fetch of missing record `k` (here the record after
a prefix of `k-1` good ones) answers 401 or an HTML login page, `sync_all`
saves the index before propagating the `RuntimeError`: the run errors out,
the persisted index holds exactly the `k-1` prefix entries, and the fetch
log stops at the failing record.  A second run with a working detail
endpoint then skips the `k-1` satisfied records and fetches exactly the
remaining `N-(k-1)`. -/
theorem c2_resumable (env env2 : SyncEnv) (sp sp2 : Bool) (s : SyncState)
    (pre post : List RecInfo) (bad : RecInfo)
    (hdisk : s.disk = none)
    (hlist : (list_all_payslips env.pages env.listFuel).1 =
      (pre ++ bad :: post).map RecInfo.ps)
    (hpre : GoodRecs env pre)
    (hext : ∀ r ∈ pre ++ bad :: post, Extracts r)
    (hbad : env.detail bad.id = .status401 ∨ env.detail bad.id = .htmlLogin)
    (hnodup : ((pre ++ bad :: post).map RecInfo.id).Nodup)
    (hnoint : env.interruptAt = none)
    (hlist2 : (list_all_payslips env2.pages env2.listFuel).1 =
      (pre ++ bad :: post).map RecInfo.ps)
    (hgood2 : GoodRecs env2 (pre ++ bad :: post))
    (hnoint2 : env2.interruptAt = none) :
    ((sync_all env sp s).1 = .error (.runtime msg401) ∨
      (sync_all env sp s).1 = .error (.runtime msgHtml)) ∧
    (∃ d, (sync_all env sp s).2.2.disk = some d ∧
      d.payslips.map Prod.fst = pre.map RecInfo.id ∧
      d.payslips.length = pre.length) ∧
    (sync_all env sp s).2.2.fetchLog =
      s.fetchLog ++ pre.map RecInfo.id ++ [bad.id] ∧
    (sync_all env2 sp2 (sync_all env sp s).2.2).1 =
      .ok ((pre ++ bad :: post).length, pre.length, (bad :: post).length) ∧
    (sync_all env2 sp2 (sync_all env sp s).2.2).2.2.fetchLog =
      (sync_all env sp s).2.2.fetchLog ++ (bad :: post).map RecInfo.id := by
  have hemptyIdx : loadIndex s.disk = ⟨[], 0, none⟩ := by rw [hdisk]; rfl
  have hscan : scanMissing s.fs (loadIndex s.disk)
      ((pre ++ bad :: post).map RecInfo.ps) =
      .ok ((pre ++ bad :: post).map RecInfo.ps, 0) := by
    rw [scanMissing_recs _ _ (pre ++ bad :: post) hext]
    rw [List.filter_eq_self.mpr
      (fun r _ => by rw [hemptyIdx]; rfl)]
  obtain ⟨m, hmor, hfp, hmexp⟩ : ∃ m, (m = msg401 ∨ m = msgHtml) ∧
      fetch_payslip_detail env bad.id = .error (.runtime m) ∧
      isSessionExpiryMsg m = true := by
    rcases hbad with h | h
    · exact ⟨msg401, Or.inl rfl,
        by unfold fetch_payslip_detail; rw [h], by decide⟩
    · exact ⟨msgHtml, Or.inr rfl,
        by unfold fetch_payslip_detail; rw [h], by decide⟩
  have hexp := downloadLoop_expiry env sp hnoint bad m
    (post.map RecInfo.ps) (hext bad (by simp)) hfp hmexp pre hpre 0 0
    (loadIndex s.disk) { s with warnings := s.warnings + 0 }
  have hmiss_eq : (pre ++ bad :: post).map RecInfo.ps =
      pre.map RecInfo.ps ++ bad.ps :: post.map RecInfo.ps := by
    simp
  have hb1 : ¬(((pre ++ bad :: post).map RecInfo.ps).isEmpty = true) := by
    cases pre <;> simp
  have hchar1 : sync_all env sp s =
      (.error (.runtime m),
        (runRecs env sp pre
          (loadIndex s.disk, { s with warnings := s.warnings + 0 })).1.saved
          (runRecs env sp pre
            (loadIndex s.disk,
              { s with warnings := s.warnings + 0 })).2.clock,
        { (runRecs env sp pre
            (loadIndex s.disk, { s with warnings := s.warnings + 0 })).2 with
          fetchLog := (runRecs env sp pre
            (loadIndex s.disk,
              { s with warnings := s.warnings + 0 })).2.fetchLog ++ [bad.id],
          disk := some ((runRecs env sp pre
            (loadIndex s.disk,
              { s with warnings := s.warnings + 0 })).1.saved
            (runRecs env sp pre
              (loadIndex s.disk,
                { s with warnings := s.warnings + 0 })).2.clock),
          clock := (runRecs env sp pre
            (loadIndex s.disk,
              { s with warnings := s.warnings + 0 })).2.clock + 1 }) := by
    unfold sync_all
    rw [hlist]
    rw [if_neg hb1]
    simp only [hscan]
    rw [if_neg hb1]
    rw [hmiss_eq, hexp]
  have hnodup' : (pre.map RecInfo.id ++
      (bad :: post).map RecInfo.id).Nodup := by
    rw [← List.map_append]; exact hnodup
  obtain ⟨hnd1, hnd2, hdisj⟩ := List.nodup_append.mp hnodup'
  obtain ⟨rdisk, rlog, rjw, rwarn, rmono, rall⟩ :=
    runRecs_state env sp pre (loadIndex s.disk)
      { s with warnings := s.warnings + 0 }
  have hkeys := runRecs_idx_keys env sp pre (loadIndex s.disk)
    { s with warnings := s.warnings + 0 }
    (fun r _ => by rw [hemptyIdx]; rfl) hnd1
  have hlook := runRecs_idx_lookup env sp pre (loadIndex s.disk)
    { s with warnings := s.warnings + 0 } hnd1
  have hkeys2 : (loadIndex (sync_all env sp s).2.2.disk).payslips.map
      Prod.fst = pre.map RecInfo.id := by
    rw [hchar1]
    show (runRecs env sp pre
      (loadIndex s.disk,
        { s with warnings := s.warnings + 0 })).1.payslips.map Prod.fst = _
    rw [hkeys, hemptyIdx]
    rfl
  refine ⟨?_, ?_, ?_, ?_⟩
  · rcases hmor with h | h
    · exact Or.inl (by rw [hchar1, h])
    · exact Or.inr (by rw [hchar1, h])
  · refine ⟨(runRecs env sp pre
      (loadIndex s.disk, { s with warnings := s.warnings + 0 })).1.saved
      (runRecs env sp pre
        (loadIndex s.disk, { s with warnings := s.warnings + 0 })).2.clock,
      by rw [hchar1], ?_, ?_⟩
    · show (runRecs env sp pre
        (loadIndex s.disk,
          { s with warnings := s.warnings + 0 })).1.payslips.map Prod.fst = _
      rw [hkeys, hemptyIdx]
      rfl
    · have hlen : ((runRecs env sp pre
          (loadIndex s.disk,
            { s with warnings := s.warnings + 0 })).1.payslips.map
              Prod.fst).length = (pre.map RecInfo.id).length := by
        rw [hkeys, hemptyIdx]; rfl
      simpa using hlen
  · rw [hchar1]
    show (runRecs env sp pre
      (loadIndex s.disk,
        { s with warnings := s.warnings + 0 })).2.fetchLog ++ [bad.id] = _
    rw [rlog]
  · -- second run: the pre records are satisfied, the rest are missing
    have hfilter : (pre ++ bad :: post).filter
        (fun r => !is_cached (sync_all env sp s).2.2.fs
          (loadIndex (sync_all env sp s).2.2.disk) r.id) =
        bad :: post := by
      rw [List.filter_append]
      have h1 : pre.filter
          (fun r => !is_cached (sync_all env sp s).2.2.fs
            (loadIndex (sync_all env sp s).2.2.disk) r.id) = [] := by
        refine List.filter_eq_nil_iff.mpr (fun r hr => ?_)
        obtain ⟨c, hc⟩ := hlook r hr
        have hcl : lookupA
            (loadIndex (sync_all env sp s).2.2.disk).payslips r.id =
            some ⟨r.pd, makeRelPath r.pd "json", pdfRelOf env sp r, c⟩ := by
          rw [hchar1]; exact hc
        have hfsr : (CACHE_DIR ++ "/" ++ makeRelPath r.pd "json") ∈
            (sync_all env sp s).2.2.fs := by
          rw [hchar1]; exact rall r hr
        have := is_cached_of_entry (sync_all env sp s).2.2.fs
          (loadIndex (sync_all env sp s).2.2.disk) r.id _ hcl hfsr
        simp [this]
      have h2 : (bad :: post).filter
          (fun r => !is_cached (sync_all env sp s).2.2.fs
            (loadIndex (sync_all env sp s).2.2.disk) r.id) =
          bad :: post := by
        refine List.filter_eq_self.mpr (fun r hr => ?_)
        have hnone : lookupA
            (loadIndex (sync_all env sp s).2.2.disk).payslips r.id =
            none := by
          rw [lookupA_eq_none_iff, hkeys2]
          intro hmem
          exact hdisj hmem (List.mem_map_of_mem RecInfo.id hr)
        show (!is_cached _ _ r.id) = true
        unfold is_cached
        rw [hnone]
        rfl
      rw [h1, h2, List.nil_append]
    have hext2 : ∀ r ∈ pre ++ bad :: post, Extracts r := hext
    have hmissgood2 : GoodRecs env2 ((pre ++ bad :: post).filter
        (fun r => !is_cached (sync_all env sp s).2.2.fs
          (loadIndex (sync_all env sp s).2.2.disk) r.id)) := by
      rw [hfilter]
      exact fun r hr => hgood2 r (by simp [List.mem_cons.mp hr])
    have hb2' : ¬((((pre ++ bad :: post).filter
        (fun r => !is_cached (sync_all env sp s).2.2.fs
          (loadIndex (sync_all env sp s).2.2.disk) r.id)).map
            RecInfo.ps).isEmpty = true) := by
      rw [hfilter]; simp
    have hchar2 := sync_success_char env2 sp2 (sync_all env sp s).2.2
      (pre ++ bad :: post) hlist2 hext2 hmissgood2 hnoint2 hb1 hb2'
    rw [hfilter] at hchar2
    obtain ⟨_, rlog2, _, _, _, _⟩ :=
      runRecs_state env2 sp2 (bad :: post)
        (loadIndex (sync_all env sp s).2.2.disk)
        { (sync_all env sp s).2.2 with
          warnings := (sync_all env sp s).2.2.warnings + 0 }
    refine ⟨?_, ?_⟩
    · rw [hchar2]
      simp only [List.length_map, List.length_append, List.length_cons,
        Except.ok.injEq, Prod.mk.injEq]
      exact ⟨trivial, by omega, by omega⟩
    · rw [hchar2]
      show (runRecs env2 sp2 (bad :: post)
        (loadIndex (sync_all env sp s).2.2.disk,
          { (sync_all env sp s).2.2 with
            warnings := (sync_all env sp s).2.2.warnings + 0 })).2.fetchLog =
        _
      rw [rlog2]

/-- A detail endpoint that answers 401 for `IDB` and serves `IDA`. -/
def detail401 : String → DetailResp :=
  fun id => if id = "IDB" then .status401 else .ok (.obj [])

/-- Environment whose session dies at the second record. -/
def env401 : SyncEnv :=
  ⟨slicePages [psA, psB] 3, 5, detail401, fun _ => false, none⟩

/-- Witness for `c2_resumable`: the first run 401s on the second record
after persisting the first entry; the rerun against a working endpoint
reports one cached and one newly fetched. -/
theorem c2_resumable_witness :
    ((sync_all env401 true stateEmpty).1 = .error (.runtime msg401) ∨
      (sync_all env401 true stateEmpty).1 = .error (.runtime msgHtml)) ∧
    (sync_all envC1 true (sync_all env401 true stateEmpty).2.2).1 =
      .ok (2, 1, 1) := by
  have h := c2_resumable env401 envC1 true true stateEmpty [recA] [] recB
    rfl rfl
    (by
      intro r hr
      rcases List.mem_cons.mp hr with hh | hh
      · subst hh
        exact ⟨⟨by decide, by decide, by decide⟩, ⟨.obj [], rfl⟩⟩
      · exact absurd hh (List.not_mem_nil r))
    (by
      intro r hr
      rcases List.mem_cons.mp hr with hh | hh
      · subst hh; exact ⟨by decide, by decide, by decide⟩
      · rcases List.mem_cons.mp hh with hh2 | hh2
        · subst hh2; exact ⟨by decide, by decide, by decide⟩
        · exact absurd hh2 (List.not_mem_nil r))
    (Or.inl rfl) (by decide) rfl rfl goodRecsC1 rfl
  exact ⟨h.1, h.2.2.2.1⟩

/-- Environment delivering a `KeyboardInterrupt` at the start of the second
download iteration, with both records missing and a working detail
endpoint. -/
def env3 : SyncEnv :=
  ⟨slicePages [psA, psB] 100, 5, fun _ => .ok (.obj []), fun _ => false,
    some 1⟩

/-- C3 is refuted by the code: a `KeyboardInterrupt` arriving during the
per-record download loop is NOT caught at the loop's boundary — the
`except RuntimeError` clause is the only handler — so it propagates out of
`sync_all` before any `index.save()` runs.  Concretely, with two missing
records and the interrupt arriving after the first was downloaded and
recorded in the in-memory index, the run ends in the interrupt, the first
record was fetched (its entry is present in memory), yet the on-disk index
was never written: the downloaded record's entry is lost, while `main`
prints "Progress has been saved". -/
theorem c3_interrupt_loses_progress :
    (sync_all env3 true stateEmpty).1 = .error .interrupt ∧
    (sync_all env3 true stateEmpty).2.2.fetchLog = ["IDA"] ∧
    lookupA (sync_all env3 true stateEmpty).2.1.payslips "IDA" ≠ none ∧
    (sync_all env3 true stateEmpty).2.2.disk = none :=
  ⟨by decide, by decide, by decide, by decide⟩

/-- C9 (amended): over a listing mixing well-formed records and records
from which no identifier can be extracted, a run with a working detail
endpoint does not abort: each unextractable record produces exactly one
warning and is never fetched; but in the returned counts it is absorbed
into the `already_cached` component (`total - len(missing)`) rather than
being counted separately: the result is
`(N, N - goodMissing, goodMissing)`. -/
theorem c9_unextractable_absorbed (env : SyncEnv) (sp : Bool)
    (s : SyncState) (items : List ListedRec)
    (hlist : (list_all_payslips env.pages env.listFuel).1 =
      items.map ListedRec.summary)
    (hok : ListedOk items)
    (hmissgood : GoodRecs env ((goodOf items).filter
      (fun r => !is_cached s.fs (loadIndex s.disk) r.id)))
    (hnoint : env.interruptAt = none)
    (hne : items ≠ []) :
    (sync_all env sp s).1 = .ok (items.length,
      items.length - ((goodOf items).filter
        (fun r => !is_cached s.fs (loadIndex s.disk) r.id)).length,
      ((goodOf items).filter
        (fun r => !is_cached s.fs (loadIndex s.disk) r.id)).length) ∧
    (sync_all env sp s).2.2.warnings =
      s.warnings + (items.filter ListedRec.isBad).length ∧
    (sync_all env sp s).2.2.fetchLog = s.fetchLog ++
      ((goodOf items).filter
        (fun r => !is_cached s.fs (loadIndex s.disk) r.id)).map
          RecInfo.id := by
  have hscan := scanMissing_mixed s.fs (loadIndex s.disk) items hok
  have hb1 : ¬((items.map ListedRec.summary).isEmpty = true) := by
    cases items with
    | nil => exact absurd rfl hne
    | cons _ _ => simp
  by_cases hM : ((goodOf items).filter
      (fun r => !is_cached s.fs (loadIndex s.disk) r.id)) = []
  · have hchar : sync_all env sp s =
        (.ok ((items.map ListedRec.summary).length,
            (items.map ListedRec.summary).length - 0, 0),
          (loadIndex s.disk).saved s.clock,
          { s with
            warnings :=
              s.warnings + (items.filter ListedRec.isBad).length,
            disk := some ((loadIndex s.disk).saved s.clock),
            clock := s.clock + 1 }) := by
      unfold sync_all
      rw [hlist]
      rw [if_neg hb1]
      simp only [hscan, hM, List.map_nil]
      rfl
    refine ⟨?_, ?_, ?_⟩
    · rw [hchar, hM]
      simp
    · rw [hchar]
    · rw [hchar, hM]
      simp
  · have hb2 : ¬((((goodOf items).filter
        (fun r => !is_cached s.fs (loadIndex s.disk) r.id)).map
          RecInfo.ps).isEmpty = true) := by
      intro hcon
      rw [List.isEmpty_eq_true, List.map_eq_nil_iff] at hcon
      exact hM hcon
    have hlsuc := downloadLoop_success env sp hnoint _ hmissgood 0 0
      (loadIndex s.disk)
      { s with warnings :=
          s.warnings + (items.filter ListedRec.isBad).length }
    obtain ⟨rdisk, rlog, rjw, rwarn, rmono, rall⟩ :=
      runRecs_state env sp ((goodOf items).filter
        (fun r => !is_cached s.fs (loadIndex s.disk) r.id))
        (loadIndex s.disk)
        { s with warnings :=
            s.warnings + (items.filter ListedRec.isBad).length }
    have hchar : sync_all env sp s =
        (.ok ((items.map ListedRec.summary).length,
            (items.map ListedRec.summary).length -
              (((goodOf items).filter
                (fun r => !is_cached s.fs (loadIndex s.disk) r.id)).map
                  RecInfo.ps).length,
            0 + ((goodOf items).filter
              (fun r => !is_cached s.fs (loadIndex s.disk) r.id)).length),
          (runRecs env sp ((goodOf items).filter
            (fun r => !is_cached s.fs (loadIndex s.disk) r.id))
            (loadIndex s.disk,
              { s with warnings :=
                s.warnings +
                  (items.filter ListedRec.isBad).length })).1.saved
            (runRecs env sp ((goodOf items).filter
              (fun r => !is_cached s.fs (loadIndex s.disk) r.id))
              (loadIndex s.disk,
                { s with warnings :=
                  s.warnings +
                    (items.filter ListedRec.isBad).length })).2.clock,
          { (runRecs env sp ((goodOf items).filter
              (fun r => !is_cached s.fs (loadIndex s.disk) r.id))
              (loadIndex s.disk,
                { s with warnings :=
                  s.warnings +
                    (items.filter ListedRec.isBad).length })).2 with
            disk := some ((runRecs env sp ((goodOf items).filter
              (fun r => !is_cached s.fs (loadIndex s.disk) r.id))
              (loadIndex s.disk,
                { s with warnings :=
                  s.warnings +
                    (items.filter ListedRec.isBad).length })).1.saved
              (runRecs env sp ((goodOf items).filter
                (fun r => !is_cached s.fs (loadIndex s.disk) r.id))
                (loadIndex s.disk,
                  { s with warnings :=
                    s.warnings +
                      (items.filter ListedRec.isBad).length })).2.clock),
            clock := (runRecs env sp ((goodOf items).filter
              (fun r => !is_cached s.fs (loadIndex s.disk) r.id))
              (loadIndex s.disk,
                { s with warnings :=
                  s.warnings +
                    (items.filter ListedRec.isBad).length })).2.clock +
              1 }) := by
      unfold sync_all
      rw [hlist]
      rw [if_neg hb1]
      simp only [hscan]
      rw [if_neg hb2]
      rw [hlsuc]
    refine ⟨?_, ?_, ?_⟩
    · rw [hchar]
      simp only [List.length_map, Nat.zero_add]
    · rw [hchar]
      exact rwarn
    · rw [hchar]
      exact rlog

/-- A listed summary carrying none of the identifier fields. -/
def psBad : Json := .obj [("note", .str "no id fields")]

/-- Environment whose listing is the single unextractable summary. -/
def env9 : SyncEnv :=
  ⟨slicePages [psBad] 3, 5, fun _ => .ok (.obj []), fun _ => false, none⟩

/-- Counterexample to C9 as stated: with one listed record from which no
identifier can be extracted and an empty index, the run warns once, fetches
nothing, persists nothing — and returns `(1, 1, 0)`: the skipped record IS
counted as `already_cached` (the index is empty, so nothing is cached),
not "counted separately from successes". -/
theorem c9_counterexample :
    (sync_all env9 true stateEmpty).1 = .ok (1, 1, 0) ∧
    (sync_all env9 true stateEmpty).2.2.warnings = 1 ∧
    (sync_all env9 true stateEmpty).2.1.payslips = [] ∧
    (sync_all env9 true stateEmpty).2.2.fetchLog = [] :=
  ⟨by decide, by decide, by decide, by decide⟩

/-- Environment listing one good and one unextractable summary. -/
def envC9m : SyncEnv :=
  ⟨slicePages [psA, psBad] 3, 5, fun _ => .ok (.obj []), fun _ => false,
    none⟩

/-- Witness for `c9_unextractable_absorbed` on the mixed two-record
listing: `(2, 1, 1)`, one warning, only the good record fetched. -/
theorem c9_unextractable_absorbed_witness :
    (sync_all envC9m true stateEmpty).1 = .ok (2, 1, 1) ∧
    (sync_all envC9m true stateEmpty).2.2.warnings = 1 ∧
    (sync_all envC9m true stateEmpty).2.2.fetchLog = ["IDA"] := by
  have hfl : ((goodOf [.good recA, .bad psBad]).filter
      (fun r => !is_cached stateEmpty.fs (loadIndex stateEmpty.disk)
        r.id)) = [recA] := rfl
  have h := c9_unextractable_absorbed envC9m true stateEmpty
    [.good recA, .bad psBad] rfl
    (by
      intro it hit
      rcases List.mem_cons.mp hit with hh | hh
      · subst hh
        exact ⟨by decide, by decide, by decide⟩
      · rcases List.mem_cons.mp hh with hh2 | hh2
        · subst hh2
          exact (by decide :
            _get_encoded_id psBad = .error .valueError)
        · exact absurd hh2 (List.not_mem_nil it))
    (by
      rw [hfl]
      intro r hr
      rcases List.mem_cons.mp hr with hh | hh
      · subst hh
        exact ⟨⟨by decide, by decide, by decide⟩, ⟨.obj [], rfl⟩⟩
      · exact absurd hh (List.not_mem_nil r))
    rfl (List.cons_ne_nil _ _)
  exact ⟨h.1, h.2.1, h.2.2⟩
